import Mathlib

/-
  Verification development for the "Stapweekend" progressive password-rule game
  (src/src/App.tsx).  Strings are modelled as `List Char` (JS strings are
  sequences of UTF-16 units; all characters relevant here are single units, so
  codepoint lists are a faithful model).  The wall clock read by rule 15 is
  modelled as an explicit parameter `now : ℕ`, the GMT+2 wall-clock time in
  total minutes; hours roll over via `(now / 60) % 24` exactly as `Date`
  arithmetic does in the source.
-/

namespace Stapweekend

/-- JS `s.toLowerCase()` on the characters occurring in this program. -/
def toLowerL (s : List Char) : List Char := s.map Char.toLower

/-- JS `s.toUpperCase()` on the characters occurring in this program. -/
def toUpperL (s : List Char) : List Char := s.map Char.toUpper

/-- JS `hay.includes(needle)`: substring (infix) test. -/
def includesL (hay needle : List Char) : Bool := decide (needle <:+: hay)

/-- JS `n.toString()` for a natural number. -/
def natStr (n : ℕ) : List Char := (Nat.repr n).toList

/-- JS `n.toString()` for an integer. -/
def intStr (n : ℤ) : List Char := (Int.repr n).toList

/-- The character class `\d` of the source's regexes. -/
def isDigitChar (c : Char) : Bool := decide ('0' ≤ c ∧ c ≤ '9')

/-- The character class `[A-Z]` of the source's regexes. -/
def isUpperChar (c : Char) : Bool := decide ('A' ≤ c ∧ c ≤ 'Z')

/-- JS `parseInt(d)` for a single digit character. -/
def digitVal (c : Char) : ℕ := c.toNat - '0'.toNat

/-- The characters matched by the JS regex class `\s`. -/
def jsWhitespaceChars : List Char :=
  ['\t', '\n', '\x0b', '\x0c', '\r', ' ', Char.ofNat 160, Char.ofNat 5760,
   Char.ofNat 8192, Char.ofNat 8193, Char.ofNat 8194, Char.ofNat 8195,
   Char.ofNat 8196, Char.ofNat 8197, Char.ofNat 8198, Char.ofNat 8199,
   Char.ofNat 8200, Char.ofNat 8201, Char.ofNat 8202, Char.ofNat 8232,
   Char.ofNat 8233, Char.ofNat 8239, Char.ofNat 8287, Char.ofNat 12288,
   Char.ofNat 65279]

/-- Membership in the JS `\s` class. -/
def isJsWhitespace (c : Char) : Bool := decide (c ∈ jsWhitespaceChars)

/-- The character set of rule 3's regex
`[!@#$%^&*()_+\-=\[\]{};':"\\|,.<>\/?]` (braces and the single quote written
via code points). -/
def specialChars : List Char :=
  ['!', '@', '#', '$', '%', '^', '&', '*', '(', ')', '_', '+', '-', '=',
   '[', ']', '\x7b', '\x7d', ';', Char.ofNat 39, ':', '\"', '\\', '|',
   ',', '.', '<', '>', '/', '?']

/-- The `mathProblem` object of the `LiveData` interface. -/
structure MathProblem where
  expression : List Char
  answer : ℤ

/-- One entry of the `locations` pools used for the geography challenge. -/
structure Location where
  code : List Char
  name : List Char
  streetViewUrl : List Char

/-- The `LiveData` interface (session context). -/
structure LiveData where
  dayOfYear : ℕ
  dayOfWeek : ℕ
  zodiacSymbol : List Char
  moonPhase : List Char
  temperature : ℤ
  wordleWord : List Char
  mathProblem : MathProblem
  chessMove : List Char
  chessPosition : List (ℕ × List Char)
  countryCode : List Char
  countryName : List Char
  streetViewUrl : List Char

/-- The `WordleState` interface. -/
structure WordleState where
  guesses : List (List Char)
  currentGuess : List Char
  gameWon : Bool
  gameOver : Bool
  maxGuesses : ℕ

/-- The value `{ guesses: [], currentGuess: '', gameWon: false, gameOver:
false, maxGuesses: 6 }` used to initialise and reset the mini-game. -/
def initialWordleState : WordleState :=
  { guesses := [], currentGuess := [], gameWon := false, gameOver := false,
    maxGuesses := 6 }

/-- The component state of `App` that the engine reads and writes
(`useState` hooks; presentation-only state such as `showPassword` omitted). -/
structure AppState where
  password : List Char
  completedRules : Finset ℕ
  maxVisibleRule : ℕ
  liveData : Option LiveData
  isLoadingData : Bool
  gameComplete : Bool
  validationFeedback : List (ℕ × List Char)
  wordleState : WordleState
  wordleError : List Char
  wordrowCompleted : Bool

/-- The three per-letter classifications of the word-guessing mini-game
(`exact` = green, `near` = Partial/yellow, `absent` = gray). -/
inductive LetterStatus where
  | exact : LetterStatus
  | near : LetterStatus
  | absent : LetterStatus
deriving DecidableEq

/-- The CSS class string `getLetterStatus` returns for each classification. -/
def statusClass : LetterStatus → String
  | LetterStatus.exact => "bg-green-500 text-white"
  | LetterStatus.near => "bg-yellow-500 text-white"
  | LetterStatus.absent => "bg-gray-400 text-white"

/-- Default character standing for a JS out-of-range (`undefined`) access;
all theorems constrain indices to be in range, so its value is irrelevant. -/
def dChar : Char := ' '

/-- `getLetterStatus(letter, position, guess)` from the source.  The `letter`
argument is rendered but ignored by the classification, exactly as in the
code.  `liveData` supplies the target word; when absent the code returns the
neutral class `bg-gray-300`. -/
def getLetterStatus (ctx : Option LiveData) (letter : Char) (position : ℕ)
    (guess : List Char) : String :=
  match ctx with
  | none => "bg-gray-300"
  | some ld =>
    let targetWord := toUpperL ld.wordleWord
    let guessUpper := toUpperL guess
    if guessUpper.getD position dChar = targetWord.getD position dChar then
      "bg-green-500 text-white"
    else if decide ((guessUpper.getD position dChar) ∈ targetWord) then
      let x := guessUpper.getD position dChar
      let letterCount := (targetWord.filter (fun l => decide (l = x))).length
      let correctlyPlaced :=
        ((List.range guessUpper.length).filter (fun i =>
          decide (guessUpper.getD i dChar = x ∧
                  targetWord.getD i dChar = guessUpper.getD i dChar))).length
      let appearedBefore :=
        ((List.range position).filter (fun i =>
          decide (guessUpper.getD i dChar = x ∧
                  ¬ targetWord.getD i dChar = guessUpper.getD i dChar))).length
      if correctlyPlaced + appearedBefore < letterCount then
        "bg-yellow-500 text-white"
      else "bg-gray-400 text-white"
    else "bg-gray-400 text-white"

/-- Modelled from the spec: occurrences of letter `c` in the target, counted
on the zipped (guess, target) pair list. -/
def tgtCt (L : List (Char × Char)) (c : Char) : ℕ :=
  L.countP (fun q => decide (q.2 = c))

/-- Modelled from the spec: occurrences of `c` consumed by Exact matches. -/
def exactCt (L : List (Char × Char)) (c : Char) : ℕ :=
  L.countP (fun q => decide (q.1 = c ∧ q.2 = q.1))

/-- Non-exact positions whose guess letter is `c` (used for the prefix of
already-processed positions in pass 2). -/
def missCt (L : List (Char × Char)) (c : Char) : ℕ :=
  L.countP (fun q => decide (q.1 = c ∧ ¬ q.2 = q.1))

/-- Pointwise update of a remaining-occurrences function. -/
def remUpdate (rem : Char → ℕ) (g : Char) : Char → ℕ :=
  fun c => if c = g then rem g - 1 else rem c

/-- Modelled from the spec: pass 2 of the reference scoring algorithm.
Exact positions were consumed up-front (pass 1); each `near` mark consumes
one remaining occurrence, strictly left to right. -/
def pass2 (rem : Char → ℕ) : List (Char × Char) → List LetterStatus
  | [] => []
  | q :: rest =>
    if q.1 = q.2 then LetterStatus.exact :: pass2 rem rest
    else if 0 < rem q.1 then LetterStatus.near :: pass2 (remUpdate rem q.1) rest
    else LetterStatus.absent :: pass2 rem rest

/-- Modelled from the spec: `WordGuessScorer.score(guess, target)`, the
two-pass reference algorithm of spec section 4.2, case-insensitive. -/
def scoreSpec (guess target : List Char) : List LetterStatus :=
  let G := toUpperL guess
  let T := toUpperL target
  let L := G.zip T
  pass2 (fun c => tgtCt L c - exactCt L c) L

/-- The `romanValues` / `romanNumerals` lookup table of the source; symbols
outside the seven glyphs map to 0, standing for JS `undefined` (falsy). -/
def romanValues (c : Char) : ℕ :=
  if c = 'I' then 1 else if c = 'V' then 5 else if c = 'X' then 10
  else if c = 'L' then 50 else if c = 'C' then 100 else if c = 'D' then 500
  else if c = 'M' then 1000 else 0

/-- The valuation loop of rule 14 (and of `highlightRomanNumerals`): scan
left to right; when the next symbol exists (truthy value) and is larger, add
the difference and skip both symbols, else add the current symbol. -/
def romanValue : List Char → ℕ
  | [] => 0
  | [c] => romanValues c
  | c :: d :: rest =>
    if 0 < romanValues d ∧ romanValues c < romanValues d then
      (romanValues d - romanValues c) + romanValue rest
    else romanValues c + romanValue (d :: rest)

/-- The character class `[IVXLCDM]` of the source's regex (uppercase only). -/
def isRoman (c : Char) : Bool :=
  decide (c = 'I' ∨ c = 'V' ∨ c = 'X' ∨ c = 'L' ∨ c = 'C' ∨ c = 'D' ∨ c = 'M')

/-- Accumulator-based splitting of a string into the maximal contiguous runs
matched by the global regex `/[IVXLCDM]+/g`; `acc` holds the (reversed)
current run. -/
def romanRunsAux : List Char → List Char → List (List Char)
  | acc, [] => if acc = [] then [] else [acc.reverse]
  | acc, c :: rest =>
    if isRoman c then romanRunsAux (c :: acc) rest
    else (if acc = [] then [] else [acc.reverse]) ++ romanRunsAux [] rest

/-- `pwd.match(/[IVXLCDM]+/g)`: the list of maximal uppercase Roman runs. -/
def romanRuns (pwd : List Char) : List (List Char) := romanRunsAux [] pwd

/-- The seven Roman glyphs, as named by the spec. -/
def romanGlyphs : List Char := ['I', 'V', 'X', 'L', 'C', 'D', 'M']

/-- Modelled from the spec: `run` is a maximal contiguous run of characters
drawn from the seven uppercase Roman glyphs inside `pwd` (nonempty, all
glyphs, not extendable on either side). -/
def IsMaximalRomanRun (pwd run : List Char) : Prop :=
  run ≠ [] ∧ (∀ c ∈ run, c ∈ romanGlyphs) ∧
  ∃ pre post, pwd = pre ++ run ++ post ∧
    (∀ c, pre.getLast? = some c → c ∉ romanGlyphs) ∧
    (∀ c, post.head? = some c → c ∉ romanGlyphs)

/-- `getCurrentTimeGMT2` and the next-minute string of rule 15, for a wall
clock given in total minutes: `HH:MM` with zero-padding. -/
def pad2 (n : ℕ) : List Char :=
  if (Nat.repr n).toList.length < 2 then '0' :: (Nat.repr n).toList
  else (Nat.repr n).toList

/-- The `HH:MM` string displayed for minute-of-time `m` (hours roll over
modulo 24, as `Date` arithmetic does). -/
def formatHM (m : ℕ) : List Char :=
  pad2 ((m / 60) % 24) ++ (':' :: pad2 (m % 60))

/-- The `months` vocabulary of rule 6. -/
def monthsList : List (List Char) :=
  ["januari", "februari", "maart", "april", "mei", "juni", "juli",
   "augustus", "september", "oktober", "november", "december"].map
    String.toList

/-- The `elements` vocabulary of rule 13 (two-letter element symbols). -/
def elementsList : List (List Char) :=
  ["He", "Li", "Be", "Ne", "Na", "Mg", "Al", "Si", "Cl", "Ar", "Ca", "Sc",
   "Ti", "Cr", "Mn", "Fe", "Co", "Ni", "Cu", "Zn", "Ga", "Ge", "As", "Se",
   "Br", "Kr", "Rb", "Sr", "Zr", "Nb", "Mo", "Tc", "Ru", "Rh", "Pd", "Ag",
   "Cd", "In", "Sn", "Sb", "Te", "Xe", "Cs", "Ba", "La", "Ce", "Pr", "Nd",
   "Pm", "Sm", "Eu", "Gd", "Tb", "Dy", "Ho", "Er", "Tm", "Yb", "Lu", "Hf",
   "Ta", "Re", "Os", "Ir", "Pt", "Au", "Hg", "Tl", "Pb", "Bi", "Po", "At",
   "Rn", "Fr", "Ra", "Ac", "Th", "Pa", "Np", "Pu", "Am", "Cm", "Bk", "Cf",
   "Es", "Fm", "Md", "No", "Lr", "Rf", "Db", "Sg", "Bh", "Hs", "Mt", "Ds",
   "Rg", "Cn", "Nh", "Fl", "Mc", "Lv", "Ts", "Og"].map String.toList

/-- The `colors` vocabulary of rule 18. -/
def colorsList : List (List Char) :=
  ["rood", "blauw", "groen", "geel", "oranje", "paars", "roze", "zwart",
   "wit", "bruin", "grijs"].map String.toList

/-- The `countries` vocabulary of rule 21's near-miss feedback. -/
def countriesList : List (List Char) :=
  ["nederland", "duitsland", "frankrijk", "belgië", "italië", "spanje",
   "portugal"].map String.toList

/-- The class `[a-h]` of rule 22's regex. -/
def isFileChar (c : Char) : Bool := decide ('a' ≤ c ∧ c ≤ 'h')

/-- The class `[1-8]` of rule 22's regex. -/
def isRankChar (c : Char) : Bool := decide ('1' ≤ c ∧ c ≤ '8')

/-- The class `[KQRBN]` of rule 22's regex. -/
def isPieceChar (c : Char) : Bool :=
  decide (c = 'K' ∨ c = 'Q' ∨ c = 'R' ∨ c = 'B' ∨ c = 'N')

/-- The class `[\+#]` of rule 22's regex. -/
def isCheckChar (c : Char) : Bool := decide (c = '+' ∨ c = '#')

/-- Consume one optional (`?`) regex item: when the presence flag is true the
class must match the next character; when false nothing is consumed. -/
def consumeIf (b : Bool) (p : Char → Bool) (l : List Char) :
    Option (List Char × List Char) :=
  if b then
    match l with
    | c :: rest => if p c then some ([c], rest) else none
    | [] => none
  else some (([], l))

/-- Attempt `/[KQRBN]?[a-h]?[1-8]?x?[a-h][1-8][\+#]?/` at the start of `l`
with a fixed presence choice for each of the four leading `?` items; the
trailing `[\+#]?` is greedy.  Returns the matched prefix. -/
def tryCombo (l : List Char) (c1 c2 c3 c4 : Bool) : Option (List Char) := do
  let r1 ← consumeIf c1 isPieceChar l
  let r2 ← consumeIf c2 isFileChar r1.2
  let r3 ← consumeIf c3 isRankChar r2.2
  let r4 ← consumeIf c4 (fun c => decide (c = 'x')) r3.2
  match r4.2 with
  | f :: r :: l5 =>
    if isFileChar f ∧ isRankChar r then
      match l5 with
      | c :: _ =>
        if isCheckChar c then some (r1.1 ++ r2.1 ++ r3.1 ++ r4.1 ++ [f, r, c])
        else some (r1.1 ++ r2.1 ++ r3.1 ++ r4.1 ++ [f, r])
      | [] => some (r1.1 ++ r2.1 ++ r3.1 ++ r4.1 ++ [f, r])
    else none
  | _ => none

/-- Backtracking order of the four optional items: depth-first with the
present branch preferred, i.e. lexicographic presence-first order. -/
def comboOrder : List (Bool × Bool × Bool × Bool) :=
  [(true, true, true, true), (true, true, true, false),
   (true, true, false, true), (true, true, false, false),
   (true, false, true, true), (true, false, true, false),
   (true, false, false, true), (true, false, false, false),
   (false, true, true, true), (false, true, true, false),
   (false, true, false, true), (false, true, false, false),
   (false, false, true, true), (false, false, true, false),
   (false, false, false, true), (false, false, false, false)]

/-- Leftmost-greedy match of the chess-notation regex at the start of `l`. -/
def matchChessAt (l : List Char) : Option (List Char) :=
  comboOrder.findSome? (fun q => tryCombo l q.1 q.2.1 q.2.2.1 q.2.2.2)

/-- Global scan (`/g` flag) of the chess-notation regex: at each position try
to match; on success continue after the match (every match has length at
least 2, so the fuel `l.length` suffices). -/
def chessScanAux : ℕ → List Char → List (List Char)
  | 0, _ => []
  | _ + 1, [] => []
  | fuel + 1, c :: rest =>
    match matchChessAt (c :: rest) with
    | some m => m :: chessScanAux fuel (List.drop (m.length - 1) rest)
    | none => chessScanAux fuel rest

/-- `pwd.match(chessNotationPattern)` of rule 22's feedback. -/
def chessMatches (l : List Char) : List (List Char) := chessScanAux l.length l

/-- The uniform validator type: candidate, optional session context, and the
GMT+2 wall clock in minutes (read only by rule 15). -/
abbrev Validator := List Char → Option LiveData → ℕ → Bool

/-- Rule 1: `pwd.length >= 8`. -/
def validator1 : Validator := fun pwd _ _ => decide (pwd.length ≥ 8)

/-- Rule 2: `/[A-Z]/.test(pwd)`. -/
def validator2 : Validator := fun pwd _ _ => pwd.any isUpperChar

/-- Rule 3: the special-character regex test. -/
def validator3 : Validator := fun pwd _ _ =>
  pwd.any (fun c => decide (c ∈ specialChars))

/-- Rule 4: `!/\s/.test(pwd)`. -/
def validator4 : Validator := fun pwd _ _ => !(pwd.any isJsWhitespace)

/-- Rule 5: `/\d/.test(pwd)`. -/
def validator5 : Validator := fun pwd _ _ => pwd.any isDigitChar

/-- Rule 6: some month name occurs in the lowercased candidate. -/
def validator6 : Validator := fun pwd _ _ =>
  monthsList.any (fun m => includesL (toLowerL pwd) m)

/-- Rule 7: the digits exist and sum to 50. -/
def validator7 : Validator := fun pwd _ _ =>
  let digits := pwd.filter isDigitChar
  if digits = [] then false
  else decide ((digits.map digitVal).sum = 50)

/-- Rule 8: the candidate contains `dayOfYear.toString()` (context). -/
def validator8 : Validator := fun pwd ctx _ =>
  match ctx with
  | some ld => includesL pwd (natStr ld.dayOfYear)
  | none => false

/-- Rule 9: the candidate contains `dayOfWeek.toString()` (context). -/
def validator9 : Validator := fun pwd ctx _ =>
  match ctx with
  | some ld => includesL pwd (natStr ld.dayOfWeek)
  | none => false

/-- Rule 10: nonempty, and neither starts nor ends with a digit. -/
def validator10 : Validator := fun pwd _ _ =>
  decide (0 < pwd.length) &&
  !(match pwd.head? with | some c => isDigitChar c | none => false) &&
  !(match pwd.getLast? with | some c => isDigitChar c | none => false)

/-- Rule 11: the candidate contains the zodiac symbol (context). -/
def validator11 : Validator := fun pwd ctx _ =>
  match ctx with
  | some ld => includesL pwd ld.zodiacSymbol
  | none => false

/-- Rule 12: the candidate contains the moon-phase symbol (context). -/
def validator12 : Validator := fun pwd ctx _ =>
  match ctx with
  | some ld => includesL pwd ld.moonPhase
  | none => false

/-- Rule 13: some two-letter element symbol occurs (case-sensitive). -/
def validator13 : Validator := fun pwd _ _ =>
  elementsList.any (fun e => includesL pwd e)

/-- Rule 14: some maximal uppercase Roman run values to exactly 35. -/
def validator14 : Validator := fun pwd _ _ =>
  let ms := romanRuns pwd
  if ms = [] then false
  else ms.any (fun m => decide (romanValue m = 35))

/-- Rule 15: the candidate contains the current `HH:MM` (GMT+2) string or
the next minute's string. -/
def validator15 : Validator := fun pwd _ now =>
  includesL pwd (formatHM now) || includesL pwd (formatHM (now + 1))

/-- Rule 16: the lowercased candidate contains `geest`. -/
def validator16 : Validator := fun pwd _ _ =>
  includesL (toLowerL pwd) ("geest".toList)

/-- Rule 17: the lowercased candidate contains `tomorrowland`. -/
def validator17 : Validator := fun pwd _ _ =>
  includesL (toLowerL pwd) ("tomorrowland".toList)

/-- Rule 18: some color word occurs in the lowercased candidate. -/
def validator18 : Validator := fun pwd _ _ =>
  colorsList.any (fun c => includesL (toLowerL pwd) c)

/-- Rule 19: the candidate contains `64`. -/
def validator19 : Validator := fun pwd _ _ => includesL pwd ("64".toList)

/-- Rule 20: the lowercased candidate contains `verkeerde`. -/
def validator20 : Validator := fun pwd _ _ =>
  includesL (toLowerL pwd) ("verkeerde".toList)

/-- Rule 21: the lowercased candidate contains the lowercased country name
of the geography target (context). -/
def validator21 : Validator := fun pwd ctx _ =>
  match ctx with
  | some ld => includesL (toLowerL pwd) (toLowerL ld.countryName)
  | none => false

/-- Rule 22: the candidate contains the best chess move (context). -/
def validator22 : Validator := fun pwd ctx _ =>
  match ctx with
  | some ld => includesL pwd ld.chessMove
  | none => false

/-- Rule 23: the candidate contains `mathProblem.answer.toString()`. -/
def validator23 : Validator := fun pwd ctx _ =>
  match ctx with
  | some ld => includesL pwd (intStr ld.mathProblem.answer)
  | none => false

/-- Rule 24: as many capitals as digits, and at least one of each. -/
def validator24 : Validator := fun pwd _ _ =>
  let capitals := (pwd.filter isUpperChar).length
  let digits := (pwd.filter isDigitChar).length
  decide (capitals = digits ∧ capitals > 0)

/-- The trial-division loop of rule 25: check divisors `i` starting at 2
while `i * i ≤ n` (the integer reading of `i <= Math.sqrt(length)`). -/
def trialDivide (n : ℕ) : ℕ → ℕ → Bool
  | _, 0 => true
  | i, fuel + 1 =>
    if i * i ≤ n then (if n % i = 0 then false else trialDivide n (i + 1) fuel)
    else true

/-- Rule 25: the candidate's length is a prime number. -/
def validator25 : Validator := fun pwd _ _ =>
  let length := pwd.length
  if length < 2 then false else trialDivide length 2 length

/-- The near-miss feedback attached to rule 21: if some recognized country
occurs but the correct one does not, report the first found as wrong. -/
def feedback21 : List Char → Option LiveData → Option (List Char) :=
  fun pwd ctx =>
    match ctx with
    | none => none
    | some ld =>
      let foundCountries :=
        countriesList.filter (fun c => includesL (toLowerL pwd) c)
      if 0 < foundCountries.length ∧
          ¬ (toLowerL ld.countryName) ∈ foundCountries then
        some (foundCountries.headD [] ++ (" (Verkeerd land)".toList))
      else none

/-- The near-miss feedback attached to rule 22: if some chess-notation-shaped
move other than the best move occurs, report the first such as illegal. -/
def feedback22 : List Char → Option LiveData → Option (List Char) :=
  fun pwd ctx =>
    match ctx with
    | none => none
    | some ld =>
      let ms := chessMatches pwd
      if 0 < ms.length then
        let foundMoves := ms.filter (fun m => decide (¬ m = ld.chessMove))
        match foundMoves with
        | mv :: _ => some (mv ++ (" (Illegale zet)".toList))
        | [] => none
      else none

/-- The `Rule` interface (presentation-only fields `description`, `tip` and
the `show*` flags omitted; `requiresLiveData` defaults to absent/false as in
the source). -/
structure Rule where
  id : ℕ
  validator : Validator
  requiresLiveData : Bool := false
  validationFeedback : Option (List Char → Option LiveData → Option (List Char)) := none

/-- Rule 1 of the catalog. -/
def rule1 : Rule := { id := 1, validator := validator1 }

/-- Rule 2 of the catalog. -/
def rule2 : Rule := { id := 2, validator := validator2 }

/-- Rule 3 of the catalog. -/
def rule3 : Rule := { id := 3, validator := validator3 }

/-- Rule 4 of the catalog. -/
def rule4 : Rule := { id := 4, validator := validator4 }

/-- Rule 5 of the catalog. -/
def rule5 : Rule := { id := 5, validator := validator5 }

/-- Rule 6 of the catalog. -/
def rule6 : Rule := { id := 6, validator := validator6 }

/-- Rule 7 of the catalog. -/
def rule7 : Rule := { id := 7, validator := validator7 }

/-- Rule 8 of the catalog (requires live data). -/
def rule8 : Rule := { id := 8, validator := validator8, requiresLiveData := true }

/-- Rule 9 of the catalog (requires live data). -/
def rule9 : Rule := { id := 9, validator := validator9, requiresLiveData := true }

/-- Rule 10 of the catalog. -/
def rule10 : Rule := { id := 10, validator := validator10 }

/-- Rule 11 of the catalog (requires live data). -/
def rule11 : Rule := { id := 11, validator := validator11, requiresLiveData := true }

/-- Rule 12 of the catalog (requires live data). -/
def rule12 : Rule := { id := 12, validator := validator12, requiresLiveData := true }

/-- Rule 13 of the catalog. -/
def rule13 : Rule := { id := 13, validator := validator13 }

/-- Rule 14 of the catalog. -/
def rule14 : Rule := { id := 14, validator := validator14 }

/-- Rule 15 of the catalog (reads the wall clock, `requiresLiveData` not
set). -/
def rule15 : Rule := { id := 15, validator := validator15 }

/-- Rule 16 of the catalog (`requiresLiveData: false` explicitly). -/
def rule16 : Rule := { id := 16, validator := validator16, requiresLiveData := false }

/-- Rule 17 of the catalog. -/
def rule17 : Rule := { id := 17, validator := validator17 }

/-- Rule 18 of the catalog. -/
def rule18 : Rule := { id := 18, validator := validator18 }

/-- Rule 19 of the catalog. -/
def rule19 : Rule := { id := 19, validator := validator19 }

/-- Rule 20 of the catalog. -/
def rule20 : Rule := { id := 20, validator := validator20 }

/-- Rule 21 of the catalog (requires live data, near-miss feedback). -/
def rule21 : Rule :=
  { id := 21, validator := validator21, requiresLiveData := true,
    validationFeedback := some feedback21 }

/-- Rule 22 of the catalog (requires live data, near-miss feedback). -/
def rule22 : Rule :=
  { id := 22, validator := validator22, requiresLiveData := true,
    validationFeedback := some feedback22 }

/-- Rule 23 of the catalog (requires live data). -/
def rule23 : Rule := { id := 23, validator := validator23, requiresLiveData := true }

/-- Rule 24 of the catalog. -/
def rule24 : Rule := { id := 24, validator := validator24 }

/-- Rule 25 of the catalog. -/
def rule25 : Rule := { id := 25, validator := validator25 }

/-- The ordered, immutable rule catalog `rules` of the source. -/
def rules : List Rule :=
  [rule1, rule2, rule3, rule4, rule5, rule6, rule7, rule8, rule9, rule10,
   rule11, rule12, rule13, rule14, rule15, rule16, rule17, rule18, rule19,
   rule20, rule21, rule22, rule23, rule24, rule25]

/-- One iteration of the evaluation `useEffect`'s `rules.forEach` body:
skip when the rule requires live data and none exists; otherwise add the id
on success, or record non-null near-miss feedback on failure. -/
def ruleStep (pwd : List Char) (ctx : Option LiveData) (now : ℕ)
    (acc : Finset ℕ × List (ℕ × List Char)) (r : Rule) :
    Finset ℕ × List (ℕ × List Char) :=
  if !r.requiresLiveData || ctx.isSome then
    if r.validator pwd ctx now then (insert r.id acc.1, acc.2)
    else
      match r.validationFeedback with
      | none => acc
      | some f =>
        match f pwd ctx with
        | none => acc
        | some msg => (acc.1, acc.2 ++ [(r.id, msg)])
  else acc

/-- The evaluation pass of the `useEffect` (lines 576-610): computes
`(newCompletedRules, newValidationFeedback)` from the candidate, the session
context, the two mini-game flags of the dependency array (read by no
validator) and the wall clock (read by rule 15 only). -/
def evaluate (pwd : List Char) (ctx : Option LiveData)
    (gameWon wordrowCompleted : Bool) (now : ℕ) :
    Finset ℕ × List (ℕ × List Char) :=
  rules.foldl (ruleStep pwd ctx now) (∅, [])

/-- The `for` loop computing `newMaxVisible`: starting at 1, while rule `i`
is completed set the count to `i + 1`; `fuel` is the remaining number of
iterations. -/
def visLoopAux (completed : Finset ℕ) : ℕ → ℕ → ℕ → ℕ
  | 0, _, acc => acc
  | fuel + 1, i, acc =>
    if i ∈ completed then visLoopAux completed fuel (i + 1) (i + 1) else acc

/-- The progression controller (lines 593-605): 0 when the candidate is
empty, else the previous visible count ratcheted up to the loop's result
capped at the number of rules. -/
def computeVisible (prev : ℕ) (password : List Char) (completed : Finset ℕ) : ℕ :=
  if 0 < password.length then
    max prev (min (visLoopAux completed rules.length 1 1) rules.length)
  else 0

/-- The whole evaluation `useEffect`: recompute completed rules and feedback,
update the visible-rule ratchet, and set `gameComplete` when every rule is
satisfied (never cleared). -/
def evalEffect (st : AppState) (now : ℕ) : AppState :=
  let res := evaluate st.password st.liveData st.wordleState.gameWon
    st.wordrowCompleted now
  let st1 := { st with
    completedRules := res.1
    validationFeedback := res.2
    maxVisibleRule := computeVisible st.maxVisibleRule st.password res.1 }
  if res.1.card = rules.length then { st1 with gameComplete := true } else st1

/-- The message set by `handleWordleGuess` for an invalid word. -/
def invalidWordMsg : List Char :=
  "Dit is geen geldig Nederlands woord volgens woordenlijst.org".toList

/-- `handleWordleGuess` with the dictionary collaborator's verdict passed in
as `isValid` (lookup failure is already mapped to `false` by
`checkDutchWord`'s catch clause). -/
def handleWordleGuess (st : AppState) (guess : List Char) (isValid : Bool) :
    AppState :=
  match st.liveData with
  | none => st
  | some ld =>
    if st.wordleState.gameOver ∨ guess.length ≠ 5 then st
    else
      let guessUpper := toUpperL guess
      if !isValid then { st with wordleError := invalidWordMsg }
      else
        let newGuesses := st.wordleState.guesses ++ [guessUpper]
        let gameWon := decide (guessUpper = toUpperL ld.wordleWord)
        let gameOver := gameWon || decide (newGuesses.length ≥ st.wordleState.maxGuesses)
        { st with
          wordleError := []
          wordleState := { st.wordleState with
            guesses := newGuesses
            currentGuess := []
            gameWon := gameWon
            gameOver := gameOver } }

/-- `resetWordleGame`. -/
def resetWordleGame (st : AppState) : AppState :=
  { st with wordleState := initialWordleState, wordleError := [] }

/-- The `locations` pool (identical literals appear in the initial fetch and
in `handleRefreshData`). -/
def locations : List Location :=
  [{ code := "NL".toList, name := "nederland".toList,
     streetViewUrl := "https://www.google.com/maps/embed?pb=!4v1750161674270!6m8!1m7!1sCAoSLEFGMVFpcE5fVjBfSGVqVGVqVGVqVGVqVGVqVGVqVGVqVGVqVGVqVGVqVGVq!2m2!1d52.3676!2d4.9041!3f0!4f0!5f0.4820865974627469!6i1".toList },
   { code := "DE".toList, name := "duitsland".toList,
     streetViewUrl := "https://www.google.com/maps/embed?pb=!4v1750161674271!6m8!1m7!1sCAoSLEFGMVFpcE5fVjBfSGVqVGVqVGVqVGVqVGVqVGVqVGVqVGVqVGVqVGVqVGVq!2m2!1d52.5200!2d13.4050!3f0!4f0!5f0.4820865974627469!6i1".toList },
   { code := "FR".toList, name := "frankrijk".toList,
     streetViewUrl := "https://www.google.com/maps/embed?pb=!4v1750161674272!6m8!1m7!1sCAoSLEFGMVFpcE5fVjBfSGVqVGVqVGVqVGVqVGVqVGVqVGVqVGVqVGVqVGVqVGVq!2m2!1d48.8566!2d2.3522!3f0!4f0!5f0.4820865974627469!6i1".toList },
   { code := "BE".toList, name := "belgië".toList,
     streetViewUrl := "https://www.google.com/maps/embed?pb=!4v1750161674270!6m8!1m7!1sPObmoWuv4YsRK7s8AA3b0w!2m2!1d50.84772347040428!2d4.357206757549814!3f144.22676!4f0!5f0.4820865974627469!6i1".toList },
   { code := "IT".toList, name := "italië".toList,
     streetViewUrl := "https://www.google.com/maps/embed?pb=!4v1750161674273!6m8!1m7!1sCAoSLEFGMVFpcE5fVjBfSGVqVGVqVGVqVGVqVGVqVGVqVGVqVGVqVGVqVGVqVGVq!2m2!1d41.9028!2d12.4964!3f0!4f0!5f0.4820865974627469!6i1".toList },
   { code := "ES".toList, name := "spanje".toList,
     streetViewUrl := "https://www.google.com/maps/embed?pb=!4v1750161674274!6m8!1m7!1sCAoSLEFGMVFpcE5fVjBfSGVqVGVqVGVqVGVqVGVqVGVqVGVqVGVqVGVqVGVqVGVq!2m2!1d40.4168!2d-3.7038!3f0!4f0!5f0.4820865974627469!6i1".toList },
   { code := "PT".toList, name := "portugal".toList,
     streetViewUrl := "https://www.google.com/maps/embed?pb=!4v1750161674275!6m8!1m7!1sCAoSLEFGMVFpcE5fVjBfSGVqVGVqVGVqVGVqVGVqVGVqVGVqVGVqVGVqVGVqVGVq!2m2!1d38.7223!2d-9.1393!3f0!4f0!5f0.4820865974627469!6i1".toList }]

/-- Default `Location` for `getD`; never selected because indices are taken
modulo the pool length (`Math.floor(Math.random() * length)` is in range). -/
def locationDefault : Location := { code := [], name := [], streetViewUrl := [] }

/-- The `problems` pool (identical literals appear in the initial fetch and
in `handleRefreshData`). -/
def problems : List MathProblem :=
  [{ expression := "(15 × 2) - (20 + 6)".toList, answer := 4 },
   { expression := "√36 - 2".toList, answer := 4 },
   { expression := "(3² × 2) - 14".toList, answer := 4 },
   { expression := "(48 ÷ 12) + 0".toList, answer := 4 },
   { expression := "(7 × 3) - 17".toList, answer := 4 },
   { expression := "(8 ÷ 2) × 1".toList, answer := 4 },
   { expression := "(5 + 3) ÷ 2".toList, answer := 4 }]

/-- Default `MathProblem` for `getD`; never selected (see above). -/
def problemDefault : MathProblem := { expression := [], answer := 0 }

/-- The `validDutchWords` fallback vocabulary. -/
def validDutchWords : List (List Char) :=
  ["HUIS", "BOOM", "WATER", "LICHT", "GROEN", "ZWART", "ROOD", "BLAUW",
   "GEEL", "GROOT", "KLEIN", "MOOI", "LIEF", "GOED", "SLECHT", "NIEUW",
   "OUD", "WARM", "KOUD", "HARD", "ZACHT", "SNEL", "TRAAG", "HOOG", "LAAG",
   "BREED", "SMAL", "LANG", "KORT", "DICHT", "OPEN", "LEEG", "VOL", "STIL",
   "LUID", "ZOET", "ZUUR", "ZOUT", "BITTER", "SCHERP", "BOT", "GLAD",
   "ROUW", "DROOG", "NAT", "SCHOON", "VUIL", "RIJK", "ARM", "DUUR"].map
    String.toList

/-- `validDutchWords.filter(word => word.length === 5)`. -/
def fiveLetterWords : List (List Char) :=
  validDutchWords.filter (fun w => decide (w.length = 5))

/-- `handleRefreshData`, with the external inputs passed explicitly: the
three random pool indices (reduced modulo the pool sizes, matching
`Math.floor(Math.random() * length)`) and the fetched temperature.  When no
live data exists yet the guard skips everything except clearing the loading
flag; otherwise only the geography target, math problem, temperature and
wordle word are replaced and the mini-game is reset. -/
def handleRefreshData (st : AppState) (locIdx wordIdx probIdx : ℕ)
    (temperature : ℤ) : AppState :=
  match st.liveData with
  | none => { st with isLoadingData := false }
  | some ld =>
    let location := locations.getD (locIdx % locations.length) locationDefault
    let wordleWord := fiveLetterWords.getD (wordIdx % fiveLetterWords.length) []
    let mathProblem := problems.getD (probIdx % problems.length) problemDefault
    { st with
      liveData := some { ld with
        countryCode := location.code
        countryName := location.name
        streetViewUrl := location.streetViewUrl
        mathProblem := mathProblem
        temperature := temperature
        wordleWord := wordleWord }
      wordleState := initialWordleState
      wordleError := []
      isLoadingData := false }

/-- The discrete input events of the single-threaded control loop; each
carries the wall-clock minute at which the evaluation effect then reruns. -/
inductive Event where
  | editPassword : List Char → ℕ → Event
  | refresh : ℕ → ℕ → ℕ → ℤ → ℕ → Event
  | wordleGuess : List Char → Bool → ℕ → Event
  | wordleReset : ℕ → Event
  | wordrowComplete : ℕ → Event

/-- One step of the control loop: apply the event's handler, then rerun the
evaluation effect (its dependency array covers the password, the live data
and the mini-game flags; rerunning it when nothing changed recomputes the
same values). -/
def step (st : AppState) : Event → AppState
  | Event.editPassword s now => evalEffect { st with password := s } now
  | Event.refresh li wi pi t now => evalEffect (handleRefreshData st li wi pi t) now
  | Event.wordleGuess g ok now => evalEffect (handleWordleGuess st g ok) now
  | Event.wordleReset now => evalEffect (resetWordleGame st) now
  | Event.wordrowComplete now => evalEffect { st with wordrowCompleted := true } now

/-- Modelled from the spec: the longest `k` (0..25) such that rule ids
`1..k` are all in the satisfied set. -/
def satisfiedPrefixLen (S : Finset ℕ) : ℕ :=
  ((List.range' 1 25).takeWhile (fun j => decide (j ∈ S))).length

/-- Closed form of the classification the source's `getLetterStatus` gives a
pair `q` of (guess, target) letters: `full` is the whole zipped word, `pre`
the zipped prefix strictly before the position. -/
def codeStatus (full pre : List (Char × Char)) (q : Char × Char) : LetterStatus :=
  if q.1 = q.2 then LetterStatus.exact
  else if exactCt full q.1 + missCt pre q.1 < tgtCt full q.1 then LetterStatus.near
  else LetterStatus.absent

/-- `codeStatus` applied along a list, tracking the processed prefix. -/
def codeList (full : List (Char × Char)) :
    List (Char × Char) → List (Char × Char) → List LetterStatus
  | _, [] => []
  | pre, q :: rest => codeStatus full pre q :: codeList full (pre ++ [q]) rest

/-- A concrete session context used by the witnesses. -/
def sampleLD : LiveData :=
  { dayOfYear := 280, dayOfWeek := 6, zodiacSymbol := "♎".toList,
    moonPhase := "🌖".toList, temperature := 20,
    wordleWord := "WOOLS".toList,
    mathProblem := { expression := "(5 + 3) ÷ 2".toList, answer := 4 },
    chessMove := "Qb5+".toList, chessPosition := [],
    countryCode := "ES".toList, countryName := "spanje".toList,
    streetViewUrl := [] }

/-- A concrete application state used by the witnesses. -/
def sampleState : AppState :=
  { password := [], completedRules := ∅, maxVisibleRule := 0,
    liveData := some sampleLD, isLoadingData := false, gameComplete := true,
    validationFeedback := [], wordleState := initialWordleState,
    wordleError := [], wordrowCompleted := false }

/-- C7: a 5-letter guess that the dictionary reports invalid (including a
failed lookup, which `checkDutchWord` maps to invalid) is never appended to
the guess list, leaves the whole mini-game round state unchanged, and sets a
nonempty user-visible rejection reason. -/
theorem invalid_guess_rejected (st : AppState) (g : List Char) (ld : LiveData)
    (hld : st.liveData = some ld) (hover : st.wordleState.gameOver = false)
    (hlen : g.length = 5) :
    handleWordleGuess st g false = { st with wordleError := invalidWordMsg } ∧
    (handleWordleGuess st g false).wordleState = st.wordleState ∧
    invalidWordMsg ≠ [] := by
  have h : handleWordleGuess st g false = { st with wordleError := invalidWordMsg } := by
    unfold handleWordleGuess
    rw [hld]
    simp [hover, hlen]
  refine ⟨h, ?_, by decide⟩
  rw [h]

/-- Witness for C7 at a concrete state and guess. -/
theorem invalid_guess_rejected_witness :
    handleWordleGuess sampleState ("APPEL".toList) false
      = { sampleState with wordleError := invalidWordMsg } ∧
    (handleWordleGuess sampleState ("APPEL".toList) false).wordleState
      = sampleState.wordleState ∧
    invalidWordMsg ≠ [] :=
  invalid_guess_rejected sampleState ("APPEL".toList) sampleLD rfl rfl (by decide)

/-- C9: refreshing with an existing session context regenerates only the
geography target, the math problem, the temperature and the target word and
resets the mini-game, while `dayOfYear`, `dayOfWeek`, `zodiacSymbol`,
`moonPhase` and `chessMove` are unchanged. -/
theorem refresh_regenerates_only (st : AppState) (ld : LiveData)
    (hld : st.liveData = some ld) (li wi pi : ℕ) (t : ℤ) :
    ∃ ld₂, (handleRefreshData st li wi pi t).liveData = some ld₂ ∧
      ld₂.dayOfYear = ld.dayOfYear ∧ ld₂.dayOfWeek = ld.dayOfWeek ∧
      ld₂.zodiacSymbol = ld.zodiacSymbol ∧ ld₂.moonPhase = ld.moonPhase ∧
      ld₂.chessMove = ld.chessMove ∧
      ld₂.temperature = t ∧
      ld₂.countryCode = (locations.getD (li % locations.length) locationDefault).code ∧
      ld₂.countryName = (locations.getD (li % locations.length) locationDefault).name ∧
      ld₂.streetViewUrl = (locations.getD (li % locations.length) locationDefault).streetViewUrl ∧
      ld₂.wordleWord = fiveLetterWords.getD (wi % fiveLetterWords.length) [] ∧
      ld₂.mathProblem = problems.getD (pi % problems.length) problemDefault ∧
      (handleRefreshData st li wi pi t).wordleState = initialWordleState ∧
      (handleRefreshData st li wi pi t).wordleError = [] := by
  unfold handleRefreshData
  rw [hld]
  exact ⟨_, rfl, rfl, rfl, rfl, rfl, rfl, rfl, rfl, rfl, rfl, rfl, rfl, rfl, rfl⟩

/-- Witness for C9 at a concrete state. -/
theorem refresh_regenerates_only_witness :
    ∃ ld₂, (handleRefreshData sampleState 1 2 3 7).liveData = some ld₂ ∧
      ld₂.dayOfYear = sampleLD.dayOfYear ∧ ld₂.dayOfWeek = sampleLD.dayOfWeek ∧
      ld₂.zodiacSymbol = sampleLD.zodiacSymbol ∧ ld₂.moonPhase = sampleLD.moonPhase ∧
      ld₂.chessMove = sampleLD.chessMove ∧
      ld₂.temperature = 7 ∧
      ld₂.countryCode = (locations.getD (1 % locations.length) locationDefault).code ∧
      ld₂.countryName = (locations.getD (1 % locations.length) locationDefault).name ∧
      ld₂.streetViewUrl = (locations.getD (1 % locations.length) locationDefault).streetViewUrl ∧
      ld₂.wordleWord = fiveLetterWords.getD (2 % fiveLetterWords.length) [] ∧
      ld₂.mathProblem = problems.getD (3 % problems.length) problemDefault ∧
      (handleRefreshData sampleState 1 2 3 7).wordleState = initialWordleState ∧
      (handleRefreshData sampleState 1 2 3 7).wordleError = [] :=
  refresh_regenerates_only sampleState sampleLD rfl 1 2 3 7

/-- The evaluation effect either keeps `gameComplete` or sets it to true. -/
lemma evalEffect_gameComplete (st : AppState) (now : ℕ) :
    (evalEffect st now).gameComplete =
      (st.gameComplete ||
        decide ((evaluate st.password st.liveData st.wordleState.gameWon
          st.wordrowCompleted now).1.card = rules.length)) := by
  unfold evalEffect
  by_cases h : (evaluate st.password st.liveData st.wordleState.gameWon
      st.wordrowCompleted now).1.card = rules.length
  · simp [h]
  · simp [h]

/-- `handleRefreshData` never writes `gameComplete`. -/
lemma handleRefreshData_gameComplete (st : AppState) (li wi pi : ℕ) (t : ℤ) :
    (handleRefreshData st li wi pi t).gameComplete = st.gameComplete := by
  unfold handleRefreshData
  cases st.liveData <;> rfl

/-- `handleWordleGuess` never writes `gameComplete`. -/
lemma handleWordleGuess_gameComplete (st : AppState) (g : List Char) (ok : Bool) :
    (handleWordleGuess st g ok).gameComplete = st.gameComplete := by
  unfold handleWordleGuess
  cases st.liveData with
  | none => rfl
  | some ld =>
    dsimp only
    split_ifs <;> rfl

/-- Every event step preserves a true `gameComplete` flag. -/
lemma step_gameComplete (st : AppState) (ev : Event)
    (h : st.gameComplete = true) : (step st ev).gameComplete = true := by
  cases ev with
  | editPassword s now =>
    rw [step, evalEffect_gameComplete]
    simp [h]
  | refresh li wi pi t now =>
    rw [step, evalEffect_gameComplete, handleRefreshData_gameComplete]
    simp [h]
  | wordleGuess g ok now =>
    rw [step, evalEffect_gameComplete, handleWordleGuess_gameComplete]
    simp [h]
  | wordleReset now =>
    rw [step, evalEffect_gameComplete]
    simp [show (resetWordleGame st).gameComplete = true from h]
  | wordrowComplete now =>
    rw [step, evalEffect_gameComplete]
    simp [h]

/-- C10: the game-completion flag is a one-way latch: an evaluation sets it
exactly when all 25 rules are simultaneously satisfied (or it was already
set), and once true it stays true across every further sequence of events,
including edits that clear the candidate. -/
theorem gameComplete_latch (st : AppState) (now : ℕ) :
    ((evalEffect st now).gameComplete =
      (st.gameComplete ||
        decide ((evaluate st.password st.liveData st.wordleState.gameWon
          st.wordrowCompleted now).1.card = rules.length))) ∧
    ∀ evs : List Event, st.gameComplete = true →
      (evs.foldl step st).gameComplete = true := by
  refine ⟨evalEffect_gameComplete st now, ?_⟩
  intro evs
  induction evs generalizing st with
  | nil => intro h; exact h
  | cons ev rest ih =>
    intro h
    exact ih (step st ev) (step_gameComplete st ev h)

/-- Witness for C10: a completed state stays completed after an edit that
clears the candidate. -/
theorem gameComplete_latch_witness :
    (List.foldl step sampleState [Event.editPassword [] 0]).gameComplete = true :=
  (gameComplete_latch sampleState 0).2 [Event.editPassword [] 0] rfl

/-- The visibility loop computes start plus the length of the satisfied
prefix beginning at the start index. -/
lemma visLoopAux_eq (S : Finset ℕ) :
    ∀ (n i : ℕ), visLoopAux S n i i =
      i + ((List.range' i n).takeWhile (fun j => decide (j ∈ S))).length := by
  intro n
  induction n with
  | zero => intro i; simp [visLoopAux]
  | succ n ih =>
    intro i
    rw [List.range'_succ]
    unfold visLoopAux
    by_cases h : i ∈ S
    · rw [if_pos h, ih (i + 1), List.takeWhile_cons]
      simp [h]
      omega
    · simp [h, List.takeWhile_cons]

/-- C3: the progression controller returns 0 exactly on the empty candidate;
on a nonempty candidate it returns the previous count ratcheted up to
`min(k+1, 25)` where `k` is the longest all-satisfied prefix of rule ids, so
the visible count never decreases while the candidate stays nonempty. -/
theorem computeVisible_spec (prev : ℕ) (pwd : List Char) (S : Finset ℕ) :
    computeVisible prev [] S = 0 ∧
    (pwd ≠ [] →
      computeVisible prev pwd S = max prev (min (satisfiedPrefixLen S + 1) 25) ∧
      prev ≤ computeVisible prev pwd S) := by
  constructor
  · simp [computeVisible]
  · intro h
    have hl : 0 < pwd.length := List.length_pos.mpr h
    have h1 : visLoopAux S rules.length 1 1 = 1 + satisfiedPrefixLen S := by
      have h2 : rules.length = 25 := rfl
      rw [h2, visLoopAux_eq S 25 1, satisfiedPrefixLen]
    constructor
    · rw [computeVisible, if_pos hl, h1]
      have h2 : rules.length = 25 := rfl
      rw [h2, Nat.add_comm 1 (satisfiedPrefixLen S)]
    · rw [computeVisible, if_pos hl]
      exact le_max_left _ _

/-- Witness for C3 at a concrete previous count, candidate and set. -/
theorem computeVisible_spec_witness :
    computeVisible 3 ("a".toList) ∅ = max 3 (min (satisfiedPrefixLen ∅ + 1) 25) ∧
    3 ≤ computeVisible 3 ("a".toList) ∅ :=
  (computeVisible_spec 3 ("a".toList) ∅).2 (by decide)

/-- The trial-division loop succeeds exactly when no divisor at or above the
start index reaches `n`, provided the fuel covers the search space. -/
lemma trialDivide_eq (n : ℕ) :
    ∀ fuel i, n < i + fuel →
      (trialDivide n i fuel = true ↔ ∀ j, i ≤ j → j * j ≤ n → n % j ≠ 0) := by
  intro fuel
  induction fuel with
  | zero =>
    intro i h
    constructor
    · intro _ j hij hjj
      have h2 : j ≤ j * j := Nat.le_mul_of_pos_left j (by omega)
      exfalso
      omega
    · intro _
      rfl
  | succ fuel ih =>
    intro i h
    unfold trialDivide
    by_cases hii : i * i ≤ n
    · rw [if_pos hii]
      by_cases hmod : n % i = 0
      · rw [if_pos hmod]
        constructor
        · intro hf
          exact absurd hf (by decide)
        · intro hall
          exact absurd hmod (hall i le_rfl hii)
      · rw [if_neg hmod, ih (i + 1) (by omega)]
        constructor
        · intro hj j hij hjj
          rcases Nat.eq_or_lt_of_le hij with rfl | hlt
          · exact hmod
          · exact hj j (by omega) hjj
        · intro hj j hij hjj
          exact hj j (by omega) hjj
    · rw [if_neg hii]
      constructor
      · intro _ j hij hjj
        have h2 : i * i ≤ j * j := Nat.mul_le_mul hij hij
        exfalso
        omega
      · intro _
        rfl

/-- Rule 25's validator decides primality of the candidate length. -/
lemma validator25_iff_prime (pwd : List Char) (ctx : Option LiveData) (now : ℕ) :
    validator25 pwd ctx now = true ↔ Nat.Prime pwd.length := by
  show (if pwd.length < 2 then false
    else trialDivide pwd.length 2 pwd.length) = true ↔ Nat.Prime pwd.length
  by_cases h2 : pwd.length < 2
  · rw [if_pos h2]
    constructor
    · intro hf
      exact absurd hf (by decide)
    · intro hp
      exfalso
      have := hp.two_le
      omega
  · rw [if_neg h2, trialDivide_eq pwd.length pwd.length 2 (by omega)]
    rw [Nat.prime_def_le_sqrt]
    constructor
    · intro hj
      refine ⟨by omega, ?_⟩
      intro m hm hms hdvd
      have hmm : m * m ≤ pwd.length := Nat.le_sqrt.mp hms
      exact hj m hm hmm (Nat.dvd_iff_mod_eq_zero.mp hdvd)
    · intro hp j hij hjj hmod
      exact hp.2 j hij (Nat.le_sqrt.mpr hjj) (Nat.dvd_iff_mod_eq_zero.mpr hmod)

/-- C8: the prime-length rule is satisfied exactly when the candidate's
length is prime; in particular lengths 2, 3, 5, 7 satisfy it and lengths
1, 4, 6, 8, 9 do not. -/
theorem prime_length_rule (pwd : List Char) (ctx : Option LiveData) (now : ℕ) :
    (validator25 pwd ctx now = true ↔ Nat.Prime pwd.length) ∧
    validator25 (List.replicate 2 'a') none 0 = true ∧
    validator25 (List.replicate 3 'a') none 0 = true ∧
    validator25 (List.replicate 5 'a') none 0 = true ∧
    validator25 (List.replicate 7 'a') none 0 = true ∧
    validator25 (List.replicate 1 'a') none 0 = false ∧
    validator25 (List.replicate 4 'a') none 0 = false ∧
    validator25 (List.replicate 6 'a') none 0 = false ∧
    validator25 (List.replicate 8 'a') none 0 = false ∧
    validator25 (List.replicate 9 'a') none 0 = false :=
  ⟨validator25_iff_prime pwd ctx now, by decide, by decide, by decide,
   by decide, by decide, by decide, by decide, by decide, by decide⟩

/-- A single rule-evaluation step adds `r.id` to the satisfied set exactly
when the context guard passes and the validator succeeds. -/
lemma ruleStep_fst_mem (pwd : List Char) (ctx : Option LiveData) (now : ℕ)
    (acc : Finset ℕ × List (ℕ × List Char)) (r : Rule) (i : ℕ) :
    i ∈ (ruleStep pwd ctx now acc r).1 ↔
      i ∈ acc.1 ∨ (r.id = i ∧ (!r.requiresLiveData || ctx.isSome) = true ∧
        r.validator pwd ctx now = true) := by
  unfold ruleStep
  by_cases hg : (!r.requiresLiveData || ctx.isSome) = true
  · rw [if_pos hg]
    by_cases hv : r.validator pwd ctx now = true
    · rw [if_pos hv]
      simp only [Finset.mem_insert]
      constructor
      · rintro (rfl | h)
        · exact Or.inr ⟨rfl, hg, hv⟩
        · exact Or.inl h
      · rintro (h | ⟨rfl, _, _⟩)
        · exact Or.inr h
        · exact Or.inl rfl
    · rw [if_neg hv]
      split
      · simp [hv]
      · split
        · simp [hv]
        · simp [hv]
  · rw [if_neg hg]
    simp [hg]

/-- A single rule-evaluation step appends feedback `(i, m)` exactly when the
context guard passes, the validator fails, and the attached near-miss
function returns the message. -/
lemma ruleStep_snd_mem (pwd : List Char) (ctx : Option LiveData) (now : ℕ)
    (acc : Finset ℕ × List (ℕ × List Char)) (r : Rule) (i : ℕ) (m : List Char) :
    (i, m) ∈ (ruleStep pwd ctx now acc r).2 ↔
      (i, m) ∈ acc.2 ∨ (r.id = i ∧ (!r.requiresLiveData || ctx.isSome) = true ∧
        r.validator pwd ctx now = false ∧
        ∃ f, r.validationFeedback = some f ∧ f pwd ctx = some m) := by
  unfold ruleStep
  by_cases hg : (!r.requiresLiveData || ctx.isSome) = true
  · rw [if_pos hg]
    by_cases hv : r.validator pwd ctx now = true
    · rw [if_pos hv]
      constructor
      · exact fun h => Or.inl h
      · rintro (h | ⟨_, _, hv2, _⟩)
        · exact h
        · rw [hv] at hv2
          exact absurd hv2 (by decide)
    · have hv2 : r.validator pwd ctx now = false := by
        revert hv
        cases r.validator pwd ctx now <;> simp
      rw [if_neg hv]
      split
      next hfb =>
        constructor
        · exact fun h => Or.inl h
        · rintro (h | ⟨_, _, _, f₂, hf₂, _⟩)
          · exact h
          · rw [hfb] at hf₂
            simp at hf₂
      next f hfb =>
        split
        next hm =>
          constructor
          · exact fun h => Or.inl h
          · rintro (h | ⟨_, _, _, f₂, hf₂, hm₂⟩)
            · exact h
            · rw [hfb, Option.some_inj] at hf₂
              subst hf₂
              rw [hm] at hm₂
              simp at hm₂
        next msg hm =>
          show (i, m) ∈ acc.2 ++ [(r.id, msg)] ↔ _
          rw [List.mem_append, List.mem_singleton]
          constructor
          · rintro (h | h)
            · exact Or.inl h
            · simp only [Prod.mk.injEq] at h
              obtain ⟨rfl, rfl⟩ := h
              exact Or.inr ⟨rfl, hg, hv2, f, hfb, hm⟩
          · rintro (h | ⟨hid, _, _, f₂, hf₂, hm₂⟩)
            · exact Or.inl h
            · rw [hfb, Option.some_inj] at hf₂
              subst hf₂
              rw [hm, Option.some_inj] at hm₂
              refine Or.inr ?_
              rw [hid, hm₂]
  · rw [if_neg hg]
    constructor
    · exact fun h => Or.inl h
    · rintro (h | ⟨_, hg2, _⟩)
      · exact h
      · exact absurd hg2 hg

/-- Membership in the satisfied set after folding a rule list. -/
lemma foldl_mem_fst (pwd : List Char) (ctx : Option LiveData) (now : ℕ) :
    ∀ (rs : List Rule) (acc : Finset ℕ × List (ℕ × List Char)) (i : ℕ),
      i ∈ (rs.foldl (ruleStep pwd ctx now) acc).1 ↔
        i ∈ acc.1 ∨ ∃ r ∈ rs, r.id = i ∧
          (!r.requiresLiveData || ctx.isSome) = true ∧
          r.validator pwd ctx now = true := by
  intro rs
  induction rs with
  | nil => intro acc i; simp
  | cons r rs ih =>
    intro acc i
    rw [List.foldl_cons, ih, ruleStep_fst_mem]
    simp only [List.mem_cons]
    constructor
    · rintro ((h | ⟨hid, hg, hv⟩) | ⟨r₂, hr₂, hrest⟩)
      · exact Or.inl h
      · exact Or.inr ⟨r, Or.inl rfl, hid, hg, hv⟩
      · exact Or.inr ⟨r₂, Or.inr hr₂, hrest⟩
    · rintro (h | ⟨r₂, (rfl | hr₂), hrest⟩)
      · exact Or.inl (Or.inl h)
      · exact Or.inl (Or.inr hrest)
      · exact Or.inr ⟨r₂, hr₂, hrest⟩

/-- Membership in the feedback list after folding a rule list. -/
lemma foldl_mem_snd (pwd : List Char) (ctx : Option LiveData) (now : ℕ) :
    ∀ (rs : List Rule) (acc : Finset ℕ × List (ℕ × List Char)) (i : ℕ)
      (m : List Char),
      (i, m) ∈ (rs.foldl (ruleStep pwd ctx now) acc).2 ↔
        (i, m) ∈ acc.2 ∨ ∃ r ∈ rs, r.id = i ∧
          (!r.requiresLiveData || ctx.isSome) = true ∧
          r.validator pwd ctx now = false ∧
          ∃ f, r.validationFeedback = some f ∧ f pwd ctx = some m := by
  intro rs
  induction rs with
  | nil =>
    intro acc i m
    constructor
    · exact fun h => Or.inl h
    · rintro (h | ⟨r, hr, _⟩)
      · exact h
      · exact absurd hr (List.not_mem_nil r)
  | cons r rs ih =>
    intro acc i m
    rw [List.foldl_cons, ih, ruleStep_snd_mem]
    simp only [List.mem_cons]
    constructor
    · rintro ((h | ⟨hid, hg, hv, hf⟩) | ⟨r₂, hr₂, hrest⟩)
      · exact Or.inl h
      · exact Or.inr ⟨r, Or.inl rfl, hid, hg, hv, hf⟩
      · exact Or.inr ⟨r₂, Or.inr hr₂, hrest⟩
    · rintro (h | ⟨r₂, (rfl | hr₂), hrest⟩)
      · exact Or.inl (Or.inl h)
      · exact Or.inl (Or.inr hrest)
      · exact Or.inr ⟨r₂, hr₂, hrest⟩

/-- The ids of the catalog rules marked `requiresLiveData`. -/
lemma req_ids : ∀ r ∈ rules, r.requiresLiveData = true →
    r.id ∈ ([8, 9, 11, 12, 21, 22, 23] : List ℕ) := by decide

/-- Conversely, every catalog rule with one of those ids requires live
data. -/
lemma ids_req : ∀ r ∈ rules, r.id ∈ ([8, 9, 11, 12, 21, 22, 23] : List ℕ) →
    r.requiresLiveData = true := by decide

/-- C5: when the session context is absent, a rule marked as requiring it is
skipped: its id is neither added to the satisfied set nor given any feedback
entry by the evaluation pass. -/
theorem context_rules_skipped (pwd : List Char) (gw wr : Bool) (now : ℕ)
    (r : Rule) (hr : r ∈ rules) (hreq : r.requiresLiveData = true) :
    r.id ∉ (evaluate pwd none gw wr now).1 ∧
    ∀ m, (r.id, m) ∉ (evaluate pwd none gw wr now).2 := by
  have hid : r.id ∈ ([8, 9, 11, 12, 21, 22, 23] : List ℕ) := req_ids r hr hreq
  constructor
  · intro hmem
    rw [evaluate, foldl_mem_fst] at hmem
    rcases hmem with h | ⟨r₂, hr₂, hid₂, hg₂, _⟩
    · simp at h
    · have hmem2 : r₂.id ∈ ([8, 9, 11, 12, 21, 22, 23] : List ℕ) := by
        rw [hid₂]; exact hid
      rw [ids_req r₂ hr₂ hmem2] at hg₂
      simp at hg₂
  · intro m hmem
    rw [evaluate, foldl_mem_snd] at hmem
    rcases hmem with h | ⟨r₂, hr₂, hid₂, hg₂, _⟩
    · simp at h
    · have hmem2 : r₂.id ∈ ([8, 9, 11, 12, 21, 22, 23] : List ℕ) := by
        rw [hid₂]; exact hid
      rw [ids_req r₂ hr₂ hmem2] at hg₂
      simp at hg₂

/-- Witness for C5: rule 8 at a concrete candidate is neither satisfied nor
given feedback while the context is absent. -/
theorem context_rules_skipped_witness :
    (8 : ℕ) ∉ (evaluate [] none false false 0).1 ∧
    ∀ m, ((8 : ℕ), m) ∉ (evaluate [] none false false 0).2 :=
  context_rules_skipped [] false false 0 rule8 (by simp [rules]) rfl

/-- Catalog rule 21 is the only rule with id 21. -/
lemma id21_cases : ∀ r ∈ rules, r.id = 21 → r = rule21 := by
  intro r hr
  fin_cases hr <;> (intro h; first | rfl | (exfalso; revert h; decide))

/-- Rule 21 membership in the satisfied set is decided by its validator
alone; the near-miss feedback never contributes. -/
lemma mem21_iff (pwd : List Char) (ld : LiveData) (gw wr : Bool) (now : ℕ) :
    21 ∈ (evaluate pwd (some ld) gw wr now).1 ↔
      validator21 pwd (some ld) now = true := by
  rw [evaluate, foldl_mem_fst]
  constructor
  · rintro (h | ⟨r₂, hr₂, hid₂, _, hv₂⟩)
    · simp at h
    · have h21 := id21_cases r₂ hr₂ hid₂
      subst h21
      exact hv₂
  · intro hv
    refine Or.inr ⟨rule21, ?_, rfl, rfl, hv⟩
    simp [rules]

/-- Rule 21 feedback entries come exactly from a failing validator together
with a non-null `feedback21` result. -/
lemma fb21_iff (pwd : List Char) (ld : LiveData) (gw wr : Bool) (now : ℕ)
    (m : List Char) :
    (21, m) ∈ (evaluate pwd (some ld) gw wr now).2 ↔
      (validator21 pwd (some ld) now = false ∧
       feedback21 pwd (some ld) = some m) := by
  rw [evaluate, foldl_mem_snd]
  constructor
  · rintro (h | ⟨r₂, hr₂, hid₂, _, hv₂, f₂, hf₂, hm₂⟩)
    · simp at h
    · have h21 := id21_cases r₂ hr₂ hid₂
      subst h21
      have hf₃ : (some feedback21 : Option _) = some f₂ := hf₂
      have hf₄ : f₂ = feedback21 := (Option.some_inj.mp hf₃).symm
      subst hf₄
      exact ⟨hv₂, hm₂⟩
  · rintro ⟨hv, hm⟩
    refine Or.inr ⟨rule21, ?_, rfl, rfl, hv, feedback21, rfl, hm⟩
    simp [rules]

/-- C6: with a session context present, a candidate containing a recognized
country other than the target (and not the target's name) leaves rule 21
unsatisfied while producing a nonempty feedback message; a candidate
containing the correct country name satisfies the rule and gets no feedback;
and satisfaction is decided by the validator alone, never by the feedback. -/
theorem geography_rule_feedback (pwd : List Char) (ld : LiveData)
    (gw wr : Bool) (now : ℕ) :
    ((∃ c ∈ countriesList, includesL (toLowerL pwd) c = true) ∧
      includesL (toLowerL pwd) (toLowerL ld.countryName) = false →
      21 ∉ (evaluate pwd (some ld) gw wr now).1 ∧
      ∃ m, m ≠ [] ∧ (21, m) ∈ (evaluate pwd (some ld) gw wr now).2) ∧
    (includesL (toLowerL pwd) (toLowerL ld.countryName) = true →
      21 ∈ (evaluate pwd (some ld) gw wr now).1 ∧
      ∀ m, (21, m) ∉ (evaluate pwd (some ld) gw wr now).2) ∧
    (21 ∈ (evaluate pwd (some ld) gw wr now).1 ↔
      validator21 pwd (some ld) now = true) := by
  refine ⟨?_, ?_, mem21_iff pwd ld gw wr now⟩
  · rintro ⟨⟨c, hcmem, hcinc⟩, hno⟩
    have hv : validator21 pwd (some ld) now = false := hno
    have hfound : c ∈ countriesList.filter (fun d => includesL (toLowerL pwd) d) :=
      List.mem_filter.mpr ⟨hcmem, hcinc⟩
    have hlen : 0 < (countriesList.filter (fun d => includesL (toLowerL pwd) d)).length :=
      List.length_pos_of_mem hfound
    have hnotin : ¬ (toLowerL ld.countryName) ∈
        countriesList.filter (fun d => includesL (toLowerL pwd) d) := by
      intro hin
      have h2 := (List.mem_filter.mp hin).2
      rw [hno] at h2
      simp at h2
    have hfeq : feedback21 pwd (some ld) =
        some ((countriesList.filter (fun d => includesL (toLowerL pwd) d)).headD []
          ++ (" (Verkeerd land)".toList)) := by
      show (if 0 < (countriesList.filter (fun d => includesL (toLowerL pwd) d)).length ∧
            ¬ (toLowerL ld.countryName) ∈
              countriesList.filter (fun d => includesL (toLowerL pwd) d)
          then some ((countriesList.filter (fun d => includesL (toLowerL pwd) d)).headD []
            ++ (" (Verkeerd land)".toList))
          else none) = _
      rw [if_pos ⟨hlen, hnotin⟩]
    constructor
    · intro hmem
      have := (mem21_iff pwd ld gw wr now).mp hmem
      rw [hv] at this
      exact absurd this (by decide)
    · refine ⟨(countriesList.filter (fun d => includesL (toLowerL pwd) d)).headD []
        ++ (" (Verkeerd land)".toList), ?_, ?_⟩
      · intro h
        have h2 := (List.append_eq_nil.mp h).2
        exact absurd h2 (by decide)
      · exact (fb21_iff pwd ld gw wr now _).mpr ⟨hv, hfeq⟩
  · intro hyes
    have hv : validator21 pwd (some ld) now = true := hyes
    constructor
    · exact (mem21_iff pwd ld gw wr now).mpr hv
    · intro m hmem
      have := ((fb21_iff pwd ld gw wr now m).mp hmem).1
      rw [hv] at this
      exact absurd this (by decide)

/-- Witness for C6 at concrete wrong-country and right-country candidates. -/
theorem geography_rule_feedback_witness :
    (21 ∉ (evaluate ("nederland".toList) (some sampleLD) false false 0).1 ∧
      ∃ m, m ≠ [] ∧
        (21, m) ∈ (evaluate ("nederland".toList) (some sampleLD) false false 0).2) ∧
    (21 ∈ (evaluate ("spanje".toList) (some sampleLD) false false 0).1 ∧
      ∀ m, (21, m) ∉ (evaluate ("spanje".toList) (some sampleLD) false false 0).2) :=
  ⟨(geography_rule_feedback ("nederland".toList) sampleLD false false 0).1
    ⟨⟨"nederland".toList, by decide, by decide⟩, by decide⟩,
   (geography_rule_feedback ("spanje".toList) sampleLD false false 0).2.1 (by decide)⟩

/-- C1 counterexample: the same `(candidate, context, flags)` triple
evaluated at two different wall-clock minutes produces different outputs
(rule 15 reads the clock), so evaluation is not a function of the triple. -/
theorem evaluate_not_pure_in_triple :
    evaluate ("12:00".toList) none false false 720 ≠
      evaluate ("12:00".toList) none false false 0 := by decide

/-- Every catalog validator except rule 15's ignores the wall clock. -/
lemma validator_now_indep : ∀ r ∈ rules, r.id ≠ 15 →
    ∀ (pwd : List Char) (ctx : Option LiveData) (n n₂ : ℕ),
      r.validator pwd ctx n = r.validator pwd ctx n₂ := by
  intro r hr
  fin_cases hr <;> (intro h pwd ctx n n₂; first | rfl | (exact absurd rfl h))

/-- Rule 15 carries no near-miss feedback function. -/
lemma feedback15_none : ∀ r ∈ rules, r.id = 15 →
    r.validationFeedback.isNone = true := by decide

/-- On a failing validator with an attached feedback function, a rule step
reduces to the feedback dispatch. -/
lemma ruleStep_feedback_eq (pwd : List Char) (ctx : Option LiveData) (now : ℕ)
    (acc : Finset ℕ × List (ℕ × List Char)) (r : Rule)
    (hg : (!r.requiresLiveData || ctx.isSome) = true)
    (hv : ¬ r.validator pwd ctx now = true)
    (f : List Char → Option LiveData → Option (List Char))
    (hfb : r.validationFeedback = some f) :
    ruleStep pwd ctx now acc r =
      (match f pwd ctx with
       | none => acc
       | some msg => (acc.1, acc.2 ++ [(r.id, msg)])) := by
  unfold ruleStep
  rw [if_pos hg, if_neg hv]
  split
  next heq =>
    rw [hfb] at heq
    simp at heq
  next f₂ heq =>
    have hf : f₂ = f := by
      rw [hfb, Option.some_inj] at heq
      exact heq.symm
    subst hf
    cases f₂ pwd ctx <;> rfl

/-- Folding a rule list whose validators ignore the clock except for rules
of id 15, and whose id-15 rules carry no feedback, yields (for any two clock
values) satisfied sets that agree outside 15 and identical feedback lists. -/
lemma foldl_erase15 (pwd : List Char) (ctx : Option LiveData) (n n₂ : ℕ) :
    ∀ rs : List Rule,
      (∀ r ∈ rs, r.id ≠ 15 →
        ∀ (p : List Char) (c : Option LiveData) (m m₂ : ℕ),
          r.validator p c m = r.validator p c m₂) →
      (∀ r ∈ rs, r.id = 15 → r.validationFeedback.isNone = true) →
      ∀ (s s₂ : Finset ℕ) (l : List (ℕ × List Char)),
        s.erase 15 = s₂.erase 15 →
        (rs.foldl (ruleStep pwd ctx n) (s, l)).1.erase 15
          = (rs.foldl (ruleStep pwd ctx n₂) (s₂, l)).1.erase 15 ∧
        (rs.foldl (ruleStep pwd ctx n) (s, l)).2
          = (rs.foldl (ruleStep pwd ctx n₂) (s₂, l)).2 := by
  intro rs
  induction rs with
  | nil =>
    intro _ _ s s₂ l hs
    exact ⟨hs, rfl⟩
  | cons r rs ih =>
    intro hva hfbs s s₂ l hs
    have hva₂ : ∀ r₂ ∈ rs, r₂.id ≠ 15 →
        ∀ (p : List Char) (c : Option LiveData) (m m₂ : ℕ),
          r₂.validator p c m = r₂.validator p c m₂ :=
      fun r₂ hr₂ => hva r₂ (List.mem_cons_of_mem r hr₂)
    have hfbs₂ : ∀ r₂ ∈ rs, r₂.id = 15 → r₂.validationFeedback.isNone = true :=
      fun r₂ hr₂ => hfbs r₂ (List.mem_cons_of_mem r hr₂)
    rw [List.foldl_cons, List.foldl_cons]
    by_cases hg : (!r.requiresLiveData || ctx.isSome) = true
    · by_cases hid : r.id = 15
      · have hfb15 : r.validationFeedback = none :=
          Option.isNone_iff_eq_none.mp (hfbs r (List.mem_cons_self r rs) hid)
        have e1 : ruleStep pwd ctx n (s, l) r =
            ((if r.validator pwd ctx n = true then insert r.id s else s), l) := by
          unfold ruleStep
          rw [if_pos hg]
          by_cases hv : r.validator pwd ctx n = true
          · rw [if_pos hv, if_pos hv]
          · rw [if_neg hv, if_neg hv, hfb15]
        have e2 : ruleStep pwd ctx n₂ (s₂, l) r =
            ((if r.validator pwd ctx n₂ = true then insert r.id s₂ else s₂), l) := by
          unfold ruleStep
          rw [if_pos hg]
          by_cases hv : r.validator pwd ctx n₂ = true
          · rw [if_pos hv, if_pos hv]
          · rw [if_neg hv, if_neg hv, hfb15]
        rw [e1, e2]
        refine ih hva₂ hfbs₂ _ _ l ?_
        rw [hid]
        split_ifs with h1 h2 h3
        · rw [Finset.erase_insert_eq_erase, Finset.erase_insert_eq_erase, hs]
        · rw [Finset.erase_insert_eq_erase, hs]
        · rw [Finset.erase_insert_eq_erase, hs]
        · exact hs
      · have hvv : r.validator pwd ctx n = r.validator pwd ctx n₂ :=
          hva r (List.mem_cons_self r rs) hid pwd ctx n n₂
        by_cases hv : r.validator pwd ctx n = true
        · have hv₂ : r.validator pwd ctx n₂ = true := by rw [← hvv]; exact hv
          have e1 : ruleStep pwd ctx n (s, l) r = (insert r.id s, l) := by
            unfold ruleStep
            rw [if_pos hg, if_pos hv]
          have e2 : ruleStep pwd ctx n₂ (s₂, l) r = (insert r.id s₂, l) := by
            unfold ruleStep
            rw [if_pos hg, if_pos hv₂]
          rw [e1, e2]
          refine ih hva₂ hfbs₂ _ _ l ?_
          rw [Finset.erase_insert_of_ne hid, Finset.erase_insert_of_ne hid, hs]
        · have hv₂ : ¬ r.validator pwd ctx n₂ = true := by rw [← hvv]; exact hv
          rcases hfb : r.validationFeedback with _ | f
          · have e1 : ruleStep pwd ctx n (s, l) r = (s, l) := by
              unfold ruleStep
              rw [if_pos hg, if_neg hv, hfb]
            have e2 : ruleStep pwd ctx n₂ (s₂, l) r = (s₂, l) := by
              unfold ruleStep
              rw [if_pos hg, if_neg hv₂, hfb]
            rw [e1, e2]
            exact ih hva₂ hfbs₂ _ _ l hs
          · have e1 := ruleStep_feedback_eq pwd ctx n (s, l) r hg hv f hfb
            have e2 := ruleStep_feedback_eq pwd ctx n₂ (s₂, l) r hg hv₂ f hfb
            rcases hm : f pwd ctx with _ | msg
            · rw [hm] at e1 e2
              rw [e1, e2]
              exact ih hva₂ hfbs₂ s s₂ l hs
            · rw [hm] at e1 e2
              rw [e1, e2]
              exact ih hva₂ hfbs₂ s s₂ (l ++ [(r.id, msg)]) hs
    · have e1 : ruleStep pwd ctx n (s, l) r = (s, l) := by
        unfold ruleStep
        rw [if_neg hg]
      have e2 : ruleStep pwd ctx n₂ (s₂, l) r = (s₂, l) := by
        unfold ruleStep
        rw [if_neg hg]
      rw [e1, e2]
      exact ih hva₂ hfbs₂ _ _ l hs

/-- C1 amended: for a fixed `(candidate, context, flags)` triple the
evaluation's feedback map is identical at every clock value and the
satisfied sets agree on every rule except the clock rule 15; with the clock
value also fixed the outputs are identical (evaluation is a function of the
quadruple). -/
theorem evaluate_pure_amended (pwd : List Char) (ctx : Option LiveData)
    (gw wr : Bool) (n n₂ : ℕ) :
    (evaluate pwd ctx gw wr n).1.erase 15 =
      (evaluate pwd ctx gw wr n₂).1.erase 15 ∧
    (evaluate pwd ctx gw wr n).2 = (evaluate pwd ctx gw wr n₂).2 :=
  foldl_erase15 pwd ctx n n₂ rules
    (fun r hr hne p c => validator_now_indep r hr hne p c)
    feedback15_none ∅ ∅ [] rfl

/-- `isRoman` is membership in the seven glyphs. -/
lemma isRoman_iff (c : Char) : isRoman c = true ↔ c ∈ romanGlyphs := by
  simp [isRoman, romanGlyphs]

/-- Scanning a wholly-Roman block moves it into the accumulator. -/
lemma romanRunsAux_append (run : List Char)
    (hrun : ∀ c ∈ run, isRoman c = true) :
    ∀ (acc rest : List Char),
      romanRunsAux acc (run ++ rest) = romanRunsAux (run.reverse ++ acc) rest := by
  induction run with
  | nil => intro acc rest; simp
  | cons c run ih =>
    intro acc rest
    have hc : isRoman c = true := hrun c (List.mem_cons_self c run)
    have hrun₂ : ∀ d ∈ run, isRoman d = true :=
      fun d hd => hrun d (List.mem_cons_of_mem c hd)
    rw [List.cons_append]
    simp only [romanRunsAux, hc, if_true]
    rw [ih hrun₂ (c :: acc) rest, List.reverse_cons, List.append_assoc]
    rfl

/-- The tail of the suffix after the last element. -/
lemma getLast?_append_right : ∀ (xs ys : List Char), ys ≠ [] →
    (xs ++ ys).getLast? = ys.getLast? := by
  intro xs
  induction xs with
  | nil => intro ys _; rfl
  | cons x xs ih =>
    intro ys h
    rw [List.cons_append]
    cases hxs : xs ++ ys with
    | nil => exact absurd (List.append_eq_nil.mp hxs).2 h
    | cons z zs =>
      rw [List.getLast?_cons_cons, ← hxs, ih ys h]

/-- The head surviving `dropWhile` fails the predicate. -/
lemma dropWhile_head_false (P : Char → Bool) :
    ∀ (l : List Char) (q : Char) (rest : List Char),
      l.dropWhile P = q :: rest → P q = false := by
  intro l
  induction l with
  | nil => intro q rest h; simp [List.dropWhile] at h
  | cons x xs ih =>
    intro q rest h
    rw [List.dropWhile_cons] at h
    by_cases hx : P x = true
    · rw [if_pos hx] at h
      exact ih q rest h
    · rw [if_neg hx] at h
      injection h with h1 _
      subst h1
      cases hq : P x
      · rfl
      · exact absurd hq hx

/-- A wholly-Roman nonempty run followed by a non-Roman (or empty) suffix is
produced by the scanner. -/
lemma runs_start (run post : List Char)
    (hrun : ∀ c ∈ run, isRoman c = true) (hne : run ≠ [])
    (hpost : ∀ c, post.head? = some c → isRoman c = false) :
    run ∈ romanRunsAux [] (run ++ post) := by
  rw [romanRunsAux_append run hrun [] post, List.append_nil]
  cases post with
  | nil =>
    simp only [romanRunsAux]
    rw [if_neg (by simpa using hne)]
    simp
  | cons d post₂ =>
    have hd : isRoman d = false := hpost d rfl
    simp only [romanRunsAux]
    rw [if_neg (by simp [hd]), if_neg (by simpa using hne)]
    simp

/-- Soundness: every run the scanner produces is a maximal Roman run of the
scanned text (with the accumulator as already-scanned Roman prefix). -/
lemma romanRunsAux_sound : ∀ (l acc : List Char),
    (∀ c ∈ acc, isRoman c = true) →
    ∀ r ∈ romanRunsAux acc l, IsMaximalRomanRun (acc.reverse ++ l) r := by
  intro l
  induction l with
  | nil =>
    intro acc hacc r hr
    by_cases ha : acc = []
    · subst ha
      simp [romanRunsAux] at hr
    · simp only [romanRunsAux] at hr
      rw [if_neg ha, List.mem_singleton] at hr
      subst hr
      refine ⟨by simpa using ha, ?_, [], [], by simp, ?_, ?_⟩
      · intro c hc
        rw [← isRoman_iff]
        exact hacc c (List.mem_reverse.mp hc)
      · intro c hc
        simp at hc
      · intro c hc
        simp at hc
  | cons c rest ih =>
    intro acc hacc r hr
    by_cases hc : isRoman c = true
    · simp only [romanRunsAux] at hr
      rw [if_pos hc] at hr
      have hacc₂ : ∀ d ∈ (c :: acc), isRoman d = true := by
        intro d hd
        rcases List.mem_cons.mp hd with rfl | hd₂
        · exact hc
        · exact hacc d hd₂
      have hres := ih (c :: acc) hacc₂ r hr
      rw [show (c :: acc).reverse ++ rest = acc.reverse ++ (c :: rest) from by
        rw [List.reverse_cons, List.append_assoc]; rfl] at hres
      exact hres
    · simp only [romanRunsAux] at hr
      rw [if_neg hc, List.mem_append] at hr
      rcases hr with hr | hr
      · by_cases ha : acc = []
        · subst ha
          simp at hr
        · rw [if_neg ha, List.mem_singleton] at hr
          subst hr
          refine ⟨by simpa using ha, ?_, [], c :: rest, by simp, ?_, ?_⟩
          · intro d hd
            rw [← isRoman_iff]
            exact hacc d (List.mem_reverse.mp hd)
          · intro d hd
            simp at hd
          · intro d hd
            rw [List.head?_cons, Option.some_inj] at hd
            subst hd
            intro hmem
            exact hc ((isRoman_iff c).mpr hmem)
      · have hres := ih [] (by intro d hd; simp at hd) r hr
        rw [List.reverse_nil, List.nil_append] at hres
        obtain ⟨hne, hall, pre, post, heq, hpre, hpost⟩ := hres
        refine ⟨hne, hall, acc.reverse ++ c :: pre, post, ?_, ?_, hpost⟩
        · rw [heq]
          simp [List.append_assoc]
        · intro d hd
          rw [getLast?_append_right acc.reverse (c :: pre) (by simp)] at hd
          cases hpre₂ : pre with
          | nil =>
            subst hpre₂
            rw [List.getLast?_singleton, Option.some_inj] at hd
            subst hd
            intro hmem
            exact hc ((isRoman_iff c).mpr hmem)
          | cons p0 pre₂ =>
            rw [hpre₂, List.getLast?_cons_cons] at hd
            apply hpre
            rw [hpre₂]
            exact hd

/-- Completeness: every maximal Roman run of a string is produced by the
scanner (strong induction via an explicit length bound). -/
lemma romanRuns_complete : ∀ (N : ℕ) (l r : List Char), l.length ≤ N →
    IsMaximalRomanRun l r → r ∈ romanRuns l := by
  intro N
  induction N with
  | zero =>
    intro l r hl hmax
    obtain ⟨hne, _, pre, post, heq, _, _⟩ := hmax
    have hnil : l = [] := List.length_eq_zero.mp (Nat.le_antisymm hl (Nat.zero_le _))
    subst hnil
    have h2 := heq.symm
    rw [List.append_eq_nil] at h2
    have h3 := h2.1
    rw [List.append_eq_nil] at h3
    exact absurd h3.2 hne
  | succ N ih =>
    intro l r hl hmax
    obtain ⟨hne, hall, pre, post, heq, hpre, hpost⟩ := hmax
    have hallR : ∀ c ∈ r, isRoman c = true :=
      fun c hc => (isRoman_iff c).mpr (hall c hc)
    have hpostR : ∀ c, post.head? = some c → isRoman c = false := by
      intro c hcp
      have h4 := hpost c hcp
      cases hq : isRoman c
      · rfl
      · exact absurd ((isRoman_iff c).mp hq) h4
    subst heq
    cases pre with
    | nil =>
      rw [List.nil_append, romanRuns]
      exact runs_start r post hallR hne hpostR
    | cons p pre₂ =>
      by_cases hp : isRoman p = true
      · have hsplit := List.takeWhile_append_dropWhile isRoman (p :: pre₂)
        have hblkR : ∀ c ∈ (p :: pre₂).takeWhile isRoman, isRoman c = true :=
          fun c hc => List.mem_takeWhile_imp hc
        cases hrest0 : (p :: pre₂).dropWhile isRoman with
        | nil =>
          exfalso
          have hblk : (p :: pre₂).takeWhile isRoman = p :: pre₂ := by
            rw [hrest0, List.append_nil] at hsplit
            exact hsplit
          have hpreR : ∀ c ∈ (p :: pre₂), isRoman c = true := by
            intro c hc
            rw [← hblk] at hc
            exact hblkR c hc
          have hx : (p :: pre₂).getLast? =
              some ((p :: pre₂).getLast (by simp)) :=
            List.getLast?_eq_getLast _ _
          have hxmem : (p :: pre₂).getLast (by simp) ∈ p :: pre₂ :=
            List.getLast_mem _
          exact hpre _ hx ((isRoman_iff _).mp (hpreR _ hxmem))
        | cons q rest1 =>
          have hq : isRoman q = false :=
            dropWhile_head_false isRoman (p :: pre₂) q rest1 hrest0
          have hltot : (p :: pre₂).length + r.length + post.length ≤ N + 1 := by
            have h7 := hl
            simp only [List.length_append, List.length_cons] at h7 ⊢
            omega
          have hbr : ((p :: pre₂).takeWhile isRoman).length +
              (q :: rest1).length = (p :: pre₂).length := by
            rw [← hrest0, ← List.length_append, hsplit]
          have hblklen : 0 < ((p :: pre₂).takeWhile isRoman).length := by
            rw [List.takeWhile_cons, if_pos hp]
            simp
          rw [show (p :: pre₂) ++ r ++ post =
              ((p :: pre₂).takeWhile isRoman) ++
                (q :: (rest1 ++ r ++ post)) from by
            conv_lhs => rw [← hsplit, hrest0]
            simp [List.append_assoc]]
          rw [romanRuns, romanRunsAux_append _ hblkR [] _, List.append_nil]
          simp only [romanRunsAux]
          rw [if_neg (by simp [hq])]
          apply List.mem_append_right
          apply ih (rest1 ++ r ++ post) r
          · simp only [List.length_append, List.length_cons] at hltot hbr ⊢
            omega
          · refine ⟨hne, hall, rest1, post, rfl, ?_, hpost⟩
            intro c hcl
            apply hpre c
            have hr1ne : rest1 ≠ [] := by
              intro hq2
              rw [hq2] at hcl
              simp at hcl
            have e6 : (p :: pre₂).getLast? = rest1.getLast? := by
              conv_lhs => rw [← hsplit, hrest0]
              rw [getLast?_append_right _ _ (by simp)]
              rw [show (q :: rest1) = [q] ++ rest1 from rfl]
              rw [getLast?_append_right _ _ hr1ne]
            rw [e6]
            exact hcl
      · rw [List.cons_append, List.cons_append, romanRuns]
        simp only [romanRunsAux]
        rw [if_neg hp, if_pos trivial, List.nil_append]
        apply ih (pre₂ ++ r ++ post) r
        · simp only [List.length_append, List.length_cons] at hl ⊢
          omega
        · refine ⟨hne, hall, pre₂, post, rfl, ?_, hpost⟩
          intro c hcl
          apply hpre c
          have hne2 : pre₂ ≠ [] := by
            intro hq2
            rw [hq2] at hcl
            simp at hcl
          rw [show (p :: pre₂) = [p] ++ pre₂ from rfl,
            getLast?_append_right _ _ hne2]
          exact hcl

/-- C4: rule 14 is satisfied exactly when some maximal contiguous run of
uppercase Roman glyphs evaluates to 35 under the subtractive left-to-right
scan; the scan values `XXXV` to 35, `IV` to 4 and `MCMXC` to 1990. -/
theorem roman_rule_spec (pwd : List Char) (ctx : Option LiveData) (now : ℕ) :
    (validator14 pwd ctx now = true ↔
      ∃ run, IsMaximalRomanRun pwd run ∧ romanValue run = 35) ∧
    romanValue ("XXXV".toList) = 35 ∧
    romanValue ("IV".toList) = 4 ∧
    romanValue ("MCMXC".toList) = 1990 := by
  refine ⟨?_, by decide, by decide, by decide⟩
  unfold validator14
  constructor
  · intro h
    by_cases hms : romanRuns pwd = []
    · rw [if_pos hms] at h
      exact absurd h (by decide)
    · rw [if_neg hms, List.any_eq_true] at h
      obtain ⟨run, hrun, hv⟩ := h
      rw [decide_eq_true_eq] at hv
      have hmax := romanRunsAux_sound pwd [] (by intro c hc; simp at hc) run hrun
      rw [List.reverse_nil, List.nil_append] at hmax
      exact ⟨run, hmax, hv⟩
  · rintro ⟨run, hmax, hv⟩
    have hmem : run ∈ romanRuns pwd :=
      romanRuns_complete pwd.length pwd run le_rfl hmax
    have hms : romanRuns pwd ≠ [] := List.ne_nil_of_mem hmem
    rw [if_neg hms, List.any_eq_true]
    refine ⟨run, hmem, ?_⟩
    rw [decide_eq_true_eq]
    exact hv

/-- Appending one pair to the processed prefix adds at most one miss. -/
lemma missCt_append_single (pre : List (Char × Char)) (q : Char × Char)
    (c : Char) :
    missCt (pre ++ [q]) c =
      missCt pre c + (if q.1 = c ∧ ¬ q.2 = q.1 then 1 else 0) := by
  rw [missCt, missCt, List.countP_append, List.countP_cons]
  simp

/-- Pass 2 with the truncated-subtraction remaining function computes the
per-position closed form of the source's classification. -/
lemma pass2_codeList (full : List (Char × Char)) :
    ∀ (rest pre : List (Char × Char)), pre ++ rest = full →
      pass2 (fun c => tgtCt full c - exactCt full c - missCt pre c) rest =
        codeList full pre rest := by
  intro rest
  induction rest with
  | nil => intro pre _; rfl
  | cons q rest ih =>
    intro pre hfull
    have hfull₂ : (pre ++ [q]) ++ rest = full := by
      rw [List.append_assoc]
      exact hfull
    simp only [pass2, codeList]
    by_cases hgt : q.1 = q.2
    · rw [if_pos hgt]
      congr 1
      · rw [codeStatus, if_pos hgt]
      · have hrem : (fun c => tgtCt full c - exactCt full c - missCt pre c) =
            (fun c => tgtCt full c - exactCt full c - missCt (pre ++ [q]) c) := by
          funext c
          rw [missCt_append_single,
            if_neg (fun h => h.2 hgt.symm), Nat.add_zero]
        rw [hrem]
        exact ih (pre ++ [q]) hfull₂
    · rw [if_neg hgt]
      have hq1 : (q.1 = q.1 ∧ ¬ q.2 = q.1) := ⟨rfl, fun h => hgt h.symm⟩
      by_cases hrem : 0 < tgtCt full q.1 - exactCt full q.1 - missCt pre q.1
      · rw [if_pos hrem]
        congr 1
        · rw [codeStatus, if_neg hgt, if_pos (by omega)]
        · have hupd :
              remUpdate (fun c => tgtCt full c - exactCt full c - missCt pre c) q.1 =
              (fun c => tgtCt full c - exactCt full c - missCt (pre ++ [q]) c) := by
            funext c
            rw [remUpdate]
            by_cases hc : c = q.1
            · subst hc
              rw [if_pos rfl, missCt_append_single, if_pos hq1]
              omega
            · rw [if_neg hc, missCt_append_single,
                if_neg (fun h => hc h.1.symm), Nat.add_zero]
          rw [hupd]
          exact ih (pre ++ [q]) hfull₂
      · rw [if_neg hrem]
        congr 1
        · rw [codeStatus, if_neg hgt, if_neg (by omega)]
        · have heq2 : (fun c => tgtCt full c - exactCt full c - missCt pre c) =
              (fun c => tgtCt full c - exactCt full c - missCt (pre ++ [q]) c) := by
            funext c
            by_cases hc : c = q.1
            · subst hc
              rw [missCt_append_single, if_pos hq1]
              omega
            · rw [missCt_append_single,
                if_neg (fun h => hc h.1.symm), Nat.add_zero]
          rw [heq2]
          exact ih (pre ++ [q]) hfull₂

/-- Positional reading of `codeList`. -/
lemma codeList_getD (full : List (Char × Char)) :
    ∀ (rest pre : List (Char × Char)) (j : ℕ), j < rest.length →
      (codeList full pre rest).getD j LetterStatus.absent =
        codeStatus full (pre ++ rest.take j) (rest.getD j (dChar, dChar)) := by
  intro rest
  induction rest with
  | nil => intro pre j hj; simp at hj
  | cons q rest ih =>
    intro pre j hj
    cases j with
    | zero =>
      simp only [codeList, List.getD_cons_zero, List.take_zero, List.append_nil]
    | succ j =>
      simp only [codeList, List.getD_cons_succ, List.take_succ_cons]
      rw [ih (pre ++ [q]) j (by simpa using hj)]
      rw [List.append_assoc]
      rfl

/-- Index-based counting over two equal-length lists equals counting over
their zip. -/
lemma countP_range_zip (P : Char → Char → Bool) :
    ∀ (G T : List Char), G.length = T.length →
      (List.range G.length).countP
          (fun i => P (G.getD i dChar) (T.getD i dChar)) =
        (G.zip T).countP (fun q => P q.1 q.2) := by
  intro G
  induction G with
  | nil => intro T h; simp
  | cons g G ih =>
    intro T h
    cases T with
    | nil => simp at h
    | cons t T =>
      rw [List.length_cons, List.range_succ_eq_map, List.countP_cons,
        List.countP_map, List.zip_cons_cons, List.countP_cons]
      have hc : ((fun i => P ((g :: G).getD i dChar) ((t :: T).getD i dChar)) ∘
          Nat.succ) = (fun i => P (G.getD i dChar) (T.getD i dChar)) := by
        funext i
        simp [Function.comp, List.getD_cons_succ]
      rw [hc, ih T (by simpa using h)]
      simp [List.getD_cons_zero]

/-- Counting a property of the second components of a zip of equal-length
lists counts it on the second list. -/
lemma countP_snd_zip (Q : Char → Bool) :
    ∀ (G T : List Char), G.length = T.length →
      (G.zip T).countP (fun q => Q q.2) = T.countP Q := by
  intro G
  induction G with
  | nil =>
    intro T h
    cases T with
    | nil => simp
    | cons t T => simp at h
  | cons g G ih =>
    intro T h
    cases T with
    | nil => simp at h
    | cons t T =>
      rw [List.zip_cons_cons, List.countP_cons, List.countP_cons,
        ih T (by simpa using h)]

/-- `take` commutes with `zip`. -/
lemma zip_take_eq : ∀ (G T : List Char) (p : ℕ),
    (G.zip T).take p = (G.take p).zip (T.take p) := by
  intro G
  induction G with
  | nil => intro T p; simp
  | cons g G ih =>
    intro T p
    cases T with
    | nil => simp
    | cons t T =>
      cases p with
      | zero => simp
      | succ p =>
        rw [List.zip_cons_cons, List.take_succ_cons, List.take_succ_cons,
          List.take_succ_cons, List.zip_cons_cons, ih T p]

/-- `getD` inside the taken prefix. -/
lemma getD_take_lt : ∀ (l : List Char) (p i : ℕ), i < p →
    (l.take p).getD i dChar = l.getD i dChar := by
  intro l
  induction l with
  | nil => intro p i _; simp
  | cons x l ih =>
    intro p i h
    cases p with
    | zero => omega
    | succ p =>
      rw [List.take_succ_cons]
      cases i with
      | zero => rfl
      | succ i =>
        rw [List.getD_cons_succ, List.getD_cons_succ, ih p i (by omega)]

/-- `getD` of a zip in range. -/
lemma getD_zip_eq : ∀ (G T : List Char) (p : ℕ), p < G.length → p < T.length →
    (G.zip T).getD p (dChar, dChar) = (G.getD p dChar, T.getD p dChar) := by
  intro G
  induction G with
  | nil => intro T p h _; simp at h
  | cons g G ih =>
    intro T p h h₂
    cases T with
    | nil => simp at h₂
    | cons t T =>
      cases p with
      | zero => rfl
      | succ p =>
        rw [List.zip_cons_cons, List.getD_cons_succ, List.getD_cons_succ,
          List.getD_cons_succ]
        exact ih T p (by simpa using h) (by simpa using h₂)

/-- `getLetterStatus` with a context present, with its local bindings
expanded. -/
lemma getLetterStatus_eq (ld : LiveData) (letter : Char) (p : ℕ)
    (guess : List Char) :
    getLetterStatus (some ld) letter p guess =
      (if (toUpperL guess).getD p dChar = (toUpperL ld.wordleWord).getD p dChar
       then "bg-green-500 text-white"
       else if decide ((toUpperL guess).getD p dChar ∈ toUpperL ld.wordleWord) = true
       then
         (if ((List.range (toUpperL guess).length).filter (fun i =>
                decide ((toUpperL guess).getD i dChar = (toUpperL guess).getD p dChar ∧
                  (toUpperL ld.wordleWord).getD i dChar = (toUpperL guess).getD i dChar))).length +
              ((List.range p).filter (fun i =>
                decide ((toUpperL guess).getD i dChar = (toUpperL guess).getD p dChar ∧
                  ¬ (toUpperL ld.wordleWord).getD i dChar = (toUpperL guess).getD i dChar))).length <
              ((toUpperL ld.wordleWord).filter (fun l =>
                decide (l = (toUpperL guess).getD p dChar))).length
          then "bg-yellow-500 text-white"
          else "bg-gray-400 text-white")
       else "bg-gray-400 text-white") := rfl

/-- `codeStatus` at an explicit pair. -/
lemma codeStatus_pair (full pre : List (Char × Char)) (g t : Char) :
    codeStatus full pre (g, t) =
      if g = t then LetterStatus.exact
      else if exactCt full g + missCt pre g < tgtCt full g then LetterStatus.near
      else LetterStatus.absent := rfl

/-- The source's per-position classification equals the closed form
`codeStatus` on the zipped uppercased words. -/
lemma getLetterStatus_codeStatus (ld : LiveData) (letter : Char)
    (guess : List Char) (hg : guess.length = 5)
    (ht : ld.wordleWord.length = 5) (p : ℕ) (hp : p < 5) :
    getLetterStatus (some ld) letter p guess =
      statusClass (codeStatus ((toUpperL guess).zip (toUpperL ld.wordleWord))
        (((toUpperL guess).zip (toUpperL ld.wordleWord)).take p)
        ((toUpperL guess).getD p dChar, (toUpperL ld.wordleWord).getD p dChar)) := by
  have hGl : (toUpperL guess).length = 5 := by
    rw [toUpperL, List.length_map, hg]
  have hTl : (toUpperL ld.wordleWord).length = 5 := by
    rw [toUpperL, List.length_map, ht]
  have hlen : (toUpperL guess).length = (toUpperL ld.wordleWord).length := by
    rw [hGl, hTl]
  rw [getLetterStatus_eq, codeStatus_pair]
  by_cases h1 : (toUpperL guess).getD p dChar = (toUpperL ld.wordleWord).getD p dChar
  · rw [if_pos h1, if_pos h1]
    rfl
  · rw [if_neg h1, if_neg h1]
    have e1 : ((toUpperL ld.wordleWord).filter (fun l =>
        decide (l = (toUpperL guess).getD p dChar))).length =
        tgtCt ((toUpperL guess).zip (toUpperL ld.wordleWord))
          ((toUpperL guess).getD p dChar) := by
      rw [← List.countP_eq_length_filter, tgtCt]
      exact (countP_snd_zip _ _ _ hlen).symm
    have e2 : ((List.range (toUpperL guess).length).filter (fun i =>
        decide ((toUpperL guess).getD i dChar = (toUpperL guess).getD p dChar ∧
          (toUpperL ld.wordleWord).getD i dChar = (toUpperL guess).getD i dChar))).length =
        exactCt ((toUpperL guess).zip (toUpperL ld.wordleWord))
          ((toUpperL guess).getD p dChar) := by
      rw [← List.countP_eq_length_filter, exactCt]
      exact countP_range_zip
        (fun a b => decide (a = (toUpperL guess).getD p dChar ∧ b = a))
        (toUpperL guess) (toUpperL ld.wordleWord) hlen
    have e3 : ((List.range p).filter (fun i =>
        decide ((toUpperL guess).getD i dChar = (toUpperL guess).getD p dChar ∧
          ¬ (toUpperL ld.wordleWord).getD i dChar = (toUpperL guess).getD i dChar))).length =
        missCt (((toUpperL guess).zip (toUpperL ld.wordleWord)).take p)
          ((toUpperL guess).getD p dChar) := by
      rw [← List.countP_eq_length_filter, missCt, zip_take_eq]
      have htakeG : ((toUpperL guess).take p).length = p := by
        rw [List.length_take]
        omega
      have hlent : ((toUpperL guess).take p).length =
          ((toUpperL ld.wordleWord).take p).length := by
        rw [List.length_take, List.length_take, hGl, hTl]
      have hbig := countP_range_zip
        (fun a b => decide (a = (toUpperL guess).getD p dChar ∧ ¬ b = a))
        ((toUpperL guess).take p) ((toUpperL ld.wordleWord).take p) hlent
      rw [htakeG] at hbig
      rw [← hbig]
      apply List.countP_congr
      intro i hi
      rw [List.mem_range] at hi
      rw [getD_take_lt (toUpperL guess) p i hi,
        getD_take_lt (toUpperL ld.wordleWord) p i hi]
    rw [e1, e2, e3]
    by_cases h2 : decide ((toUpperL guess).getD p dChar ∈ toUpperL ld.wordleWord) = true
    · rw [if_pos h2]
      by_cases h3 : exactCt ((toUpperL guess).zip (toUpperL ld.wordleWord))
            ((toUpperL guess).getD p dChar) +
          missCt (((toUpperL guess).zip (toUpperL ld.wordleWord)).take p)
            ((toUpperL guess).getD p dChar) <
          tgtCt ((toUpperL guess).zip (toUpperL ld.wordleWord))
            ((toUpperL guess).getD p dChar)
      · rw [if_pos h3, if_pos h3]
        rfl
      · rw [if_neg h3, if_neg h3]
        rfl
    · rw [if_neg h2]
      have h4 : ¬ (toUpperL guess).getD p dChar ∈ toUpperL ld.wordleWord := by
        intro hmem
        exact h2 (by rw [decide_eq_true_eq]; exact hmem)
      have h8 : (toUpperL ld.wordleWord).countP
          (fun l => decide (l = (toUpperL guess).getD p dChar)) = 0 := by
        rw [List.countP_eq_zero]
        intro a ha hd
        rw [decide_eq_true_eq] at hd
        subst hd
        exact h4 ha
      have h5 : tgtCt ((toUpperL guess).zip (toUpperL ld.wordleWord))
          ((toUpperL guess).getD p dChar) = 0 :=
        (countP_snd_zip (fun l => decide (l = (toUpperL guess).getD p dChar))
          (toUpperL guess) (toUpperL ld.wordleWord) hlen).trans h8
      rw [if_neg (by omega)]
      rfl

/-- C2: the source's per-letter classification over a 5-letter guess and
5-letter target, compared case-insensitively, equals the spec's two-pass
reference scoring algorithm with strict left-to-right consumption of the
target's letter multiset. -/
theorem wordle_scorer_matches_spec (ld : LiveData) (letter : Char)
    (guess : List Char) (hg : guess.length = 5)
    (ht : ld.wordleWord.length = 5) (p : ℕ) (hp : p < 5) :
    getLetterStatus (some ld) letter p guess =
      statusClass ((scoreSpec guess ld.wordleWord).getD p LetterStatus.absent) := by
  have hGl : (toUpperL guess).length = 5 := by
    rw [toUpperL, List.length_map, hg]
  have hTl : (toUpperL ld.wordleWord).length = 5 := by
    rw [toUpperL, List.length_map, ht]
  have hL : ((toUpperL guess).zip (toUpperL ld.wordleWord)).length = 5 := by
    rw [List.length_zip, hGl, hTl]
    simp
  have hscore : scoreSpec guess ld.wordleWord =
      codeList ((toUpperL guess).zip (toUpperL ld.wordleWord)) []
        ((toUpperL guess).zip (toUpperL ld.wordleWord)) := by
    have hrem0 : (fun c => tgtCt ((toUpperL guess).zip (toUpperL ld.wordleWord)) c -
          exactCt ((toUpperL guess).zip (toUpperL ld.wordleWord)) c) =
        (fun c => tgtCt ((toUpperL guess).zip (toUpperL ld.wordleWord)) c -
          exactCt ((toUpperL guess).zip (toUpperL ld.wordleWord)) c -
          missCt [] c) := by
      funext c
      rw [missCt]
      simp
    calc scoreSpec guess ld.wordleWord
        = pass2 (fun c => tgtCt ((toUpperL guess).zip (toUpperL ld.wordleWord)) c -
            exactCt ((toUpperL guess).zip (toUpperL ld.wordleWord)) c)
            ((toUpperL guess).zip (toUpperL ld.wordleWord)) := rfl
      _ = pass2 (fun c => tgtCt ((toUpperL guess).zip (toUpperL ld.wordleWord)) c -
            exactCt ((toUpperL guess).zip (toUpperL ld.wordleWord)) c -
            missCt [] c)
            ((toUpperL guess).zip (toUpperL ld.wordleWord)) := by rw [hrem0]
      _ = codeList ((toUpperL guess).zip (toUpperL ld.wordleWord)) []
            ((toUpperL guess).zip (toUpperL ld.wordleWord)) :=
        pass2_codeList _ _ [] rfl
  rw [getLetterStatus_codeStatus ld letter guess hg ht p hp, hscore]
  rw [codeList_getD _ _ [] p (by rw [hL]; exact hp), List.nil_append]
  rw [getD_zip_eq _ _ p (by omega) (by omega)]

/-- Witness for C2 on the spec's own example, guess `ALLOW` against target
`WOOLS` at the duplicated letter position. -/
theorem wordle_scorer_matches_spec_witness :
    getLetterStatus (some sampleLD) 'L' 2 ("ALLOW".toList) =
      statusClass ((scoreSpec ("ALLOW".toList) sampleLD.wordleWord).getD 2
        LetterStatus.absent) :=
  wordle_scorer_matches_spec sampleLD 'L' ("ALLOW".toList) (by decide)
    (by decide) 2 (by decide)

end Stapweekend
